import Mathlib

/-!
Verification of the gqlmap GraphQL reconnaissance tool against its
natural-language specification.

The development shallowly embeds the relevant Rust code:
JSON bodies become an inductive `Json` (serde_json::Value), HTTP responses
become `GraphQLResponse` (src/http/client.rs), probe verdicts become pure
functions of the response body, and the schema inference engine
(src/schema/inference.rs) becomes a fuel-indexed state-passing loop over an
abstract server oracle `Server : String → Option GraphQLResponse`
(`none` models a transport error / the request not completing).
-/

/-- Shallow model of serde_json::Value.  Numbers carry the flag
`Number::is_f64` together with their serialized literal text; object fields
are an association list in insertion order. -/
inductive Json where
  | null : Json
  | bool : Bool → Json
  | num : Bool → String → Json
  | str : String → Json
  | arr : List Json → Json
  | obj : List (String × Json) → Json

/-- Key lookup in an object's field list (first match), as serde's
`Map::get`. -/
def jsonGetKey : List (String × Json) → String → Option Json
  | [], _ => none
  | (k, v) :: rest, key => if k = key then some v else jsonGetKey rest key

/-- `Value::get(key)`: `Some` only on objects holding the key. -/
def Json.get : Json → String → Option Json
  | .obj fs, key => jsonGetKey fs key
  | _, _ => none

/-- `Value::as_array()`. -/
def Json.asArray : Json → Option (List Json)
  | .arr xs => some xs
  | _ => none

/-- `Value::as_str()`. -/
def Json.asStr : Json → Option String
  | .str s => some s
  | _ => none

/-- `Value::is_array()`. -/
def Json.isArr : Json → Bool
  | .arr _ => true
  | _ => false

/-- Hex digit used by serde_json's `\u00XX` escapes for control characters. -/
def hexDigit (n : Nat) : Char :=
  if n < 10 then Char.ofNat (48 + n) else Char.ofNat (87 + n)

/-- serde_json's escaping of one character inside a string literal. -/
def escapeChar (c : Char) : List Char :=
  if c = '"' then ['\\', '"']
  else if c = '\\' then ['\\', '\\']
  else if c = '\n' then ['\\', 'n']
  else if c = '\r' then ['\\', 'r']
  else if c = '\t' then ['\\', 't']
  else if c = Char.ofNat 8 then ['\\', 'b']
  else if c = Char.ofNat 12 then ['\\', 'f']
  else if c.toNat < 32 then
    ['\\', 'u', '0', '0', hexDigit (c.toNat / 16), hexDigit (c.toNat % 16)]
  else [c]

/-- serde_json's serialization of a string, quotes included. -/
def escapeString (s : String) : String :=
  "\"" ++ String.mk (s.toList.flatMap escapeChar) ++ "\""

mutual

/-- Compact serialization, as `serde_json::Value::to_string()` (used by the
depth-limit probe on the `errors` value).  Numbers re-emit the literal text
stored in the model. -/
def Json.serialize : Json → String
  | .null => "null"
  | .bool b => if b then "true" else "false"
  | .num _ lit => lit
  | .str s => escapeString s
  | .arr xs => "[" ++ Json.serializeList xs ++ "]"
  | .obj fs => "\x7b" ++ Json.serializeObj fs ++ "\x7d"

/-- Comma-separated serialization of array elements. -/
def Json.serializeList : List Json → String
  | [] => ""
  | [x] => Json.serialize x
  | x :: y :: rest => Json.serialize x ++ "," ++ Json.serializeList (y :: rest)

/-- Comma-separated serialization of object entries. -/
def Json.serializeObj : List (String × Json) → String
  | [] => ""
  | [(k, v)] => escapeString k ++ ":" ++ Json.serialize v
  | (k, v) :: e :: rest =>
      escapeString k ++ ":" ++ Json.serialize v ++ "," ++ Json.serializeObj (e :: rest)

end

/-- Substring search on character lists, as Rust's `str::contains(&str)`. -/
def containsSub (needle : List Char) : List Char → Bool
  | [] => needle.isEmpty
  | c :: t => needle.isPrefixOf (c :: t) || containsSub needle t

/-- `String`-level wrapper for `str::contains`. -/
def strContains (hay needle : String) : Bool :=
  containsSub needle.toList hay.toList

/-- ASCII fragment of Rust's `str::to_lowercase` (the code only compares
against ASCII keywords). -/
def asciiLower (s : String) : String :=
  String.mk (s.toList.map Char.toLower)

/-- HTTP response envelope, as `GraphQLResponse` in src/http/client.rs. -/
structure GraphQLResponse where
  status : Nat
  body : Json
  curl_command : String

/-- The sentinel body stored when the HTTP body is not valid JSON
(src/http/client.rs line 178). -/
def parseFailureSentinel : Json :=
  Json.obj [("error", Json.str "Failed to parse response as JSON")]

/-- `GraphQLResponse::from_response`, with the transport and curl-building
abstracted: `parsed` is the result of `response.json()`, `none` meaning the
body was not valid JSON. -/
def from_response (status : Nat) (parsed : Option Json) (curl : String) : GraphQLResponse :=
  { status := status, body := parsed.getD parseFailureSentinel, curl_command := curl }

/-- `GraphQLResponse::has_data`. -/
def GraphQLResponse.has_data (r : GraphQLResponse) : Bool :=
  (r.body.get "data").isSome

/-- `GraphQLResponse::has_errors`. -/
def GraphQLResponse.has_errors (r : GraphQLResponse) : Bool :=
  (r.body.get "errors").isSome

/-- `GraphQLResponse::get_data`. -/
def GraphQLResponse.get_data (r : GraphQLResponse) : Option Json :=
  r.body.get "data"

/-- `GraphQLResponse::get_errors`. -/
def GraphQLResponse.get_errors (r : GraphQLResponse) : Option Json :=
  r.body.get "errors"

/-- `GraphQLResponse::get_first_error_message`. -/
def GraphQLResponse.get_first_error_message (r : GraphQLResponse) : Option String := do
  let errs ← r.body.get "errors"
  let arr ← errs.asArray
  let first ← arr.head?
  let msg ← first.get "message"
  msg.asStr

/-- `GraphQLResponse::get_extensions`: note that the code reads the
`extensions` member of the *first element of the errors array*, not a
top-level `extensions` member. -/
def GraphQLResponse.get_extensions (r : GraphQLResponse) : Option Json := do
  let errs ← r.body.get "errors"
  let arr ← errs.asArray
  let first ← arr.head?
  first.get "extensions"

/-- The detector's root-name sentinels (src/tests/detection.rs line 12). -/
def valid_roots : List String := ["Query", "QueryRoot", "query_root", "Root"]

/-- First branch of `is_graphql_endpoint`: `data.__typename` is a string
among the root sentinels. -/
def detectionDataHit (r : GraphQLResponse) : Bool :=
  match r.get_data with
  | some data =>
    match data.get "__typename" with
    | some (Json.str name) => valid_roots.contains name
    | _ => false
  | none => false

/-- Second branch of `is_graphql_endpoint`: some element of the `errors`
array carries `locations` or `extensions`. -/
def detectionErrorsHit (r : GraphQLResponse) : Bool :=
  match r.get_errors with
  | some errors =>
    match errors.asArray with
    | some arr => arr.any fun e => (e.get "locations").isSome || (e.get "extensions").isSome
    | none => false
  | none => false

/-- Response-classification logic of `is_graphql_endpoint`
(src/tests/detection.rs lines 9-30); the POST itself is abstracted. -/
def is_graphql_endpoint (r : GraphQLResponse) : Bool :=
  detectionDataHit r || detectionErrorsHit r

/-- Verdict of the circular-introspection probe
(src/tests/dos.rs lines 154-170). -/
def circular_introspection_vulnerable (r : GraphQLResponse) : Bool :=
  match r.get_data with
  | some data =>
    match data.get "__schema" with
    | some schema =>
      match schema.get "types" with
      | some types =>
        match types.asArray with
        | some arr => decide (arr.length > 25)
        | none => false
      | none => false
    | none => false
  | none => false

/-- Verdict of the trace-mode probe (src/tests/info.rs lines 145-149). -/
def trace_mode_vulnerable (r : GraphQLResponse) : Bool :=
  match r.get_extensions with
  | some extensions => (extensions.get "tracing").isSome
  | none => false

/-- The response's top-level `extensions` member.  Modelled from the spec's
words "response extensions" (glossary: an object attached to responses);
used to compare the specified trace-mode rule with the implemented one. -/
def spec_response_extensions (r : GraphQLResponse) : Option Json :=
  r.body.get "extensions"

/-- Verdict of the GET-mutation probe (src/tests/csrf.rs lines 56-65). -/
def get_mutation_vulnerable (r : GraphQLResponse) : Bool :=
  match r.get_data with
  | some data => (data.get "__typename").isSome
  | none =>
    match r.get_first_error_message with
    | some msg =>
      !(strContains (asciiLower msg) "get") &&
      !(strContains (asciiLower msg) "not allowed") &&
      !(strContains (asciiLower msg) "only")
    | none => false

/-- Rust `char::is_whitespace` (the Unicode White_Space property). -/
def isRustWhitespace (c : Char) : Bool :=
  c.toNat ∈ ([9, 10, 11, 12, 13, 32, 133, 160, 5760,
    8192, 8193, 8194, 8195, 8196, 8197, 8198, 8199, 8200, 8201, 8202,
    8232, 8233, 8239, 8287, 12288] : List Nat)

/-- Rust `str::trim` on a character list. -/
def trimChars (l : List Char) : List Char :=
  ((l.dropWhile isRustWhitespace).reverse.dropWhile isRustWhitespace).reverse

/-- Rust `str::starts_with(char)` on a character list. -/
def startsWithChar (l : List Char) (c : Char) : Bool :=
  match l with
  | [] => false
  | c0 :: _ => c0 = c

/-- The pure normalization applied by discovery's `load_wordlist`
(src/discovery/endpoint.rs lines 62-73) to the list of lines of the file:
trim, drop blanks and `#` comments, prefix entries with `/` when missing. -/
def normalize_wordlist (lines : List (List Char)) : List (List Char) :=
  ((lines.map trimChars).filter
    (fun line => !line.isEmpty && !startsWithChar line '#')).map
    (fun line => if startsWithChar line '/' then line else '/' :: line)

/-- Rust regex `\w` restricted to the ASCII inputs the tool handles:
letters, digits and underscore. -/
def isWordChar (c : Char) : Bool :=
  c.isAlphanum || c = '_'

/-- Double or single quote, the character class `["']` of the inferrer's
regexes. -/
def isQuoteChar (c : Char) : Bool :=
  c = '"' || c = Char.ofNat 39

/-- Maximal run of `\w` characters and the remaining input. -/
def takeWordRun : List Char → List Char × List Char
  | [] => ([], [])
  | c :: rest =>
    if isWordChar c then
      let (w, r) := takeWordRun rest
      (c :: w, r)
    else ([], c :: rest)

/-- Match `["']?(\w+)["']?` at the current position, returning the capture
and the rest after the (greedy) match.  When the leading quote is present
but no word character follows, backtracking to the empty-quote alternative
also fails (a quote is not `\w`), so the match fails. -/
def matchQuotedWord (s : List Char) : Option (List Char × List Char) :=
  let core : List Char → Option (List Char × List Char) := fun t =>
    let (w, r) := takeWordRun t
    if w.isEmpty then none
    else
      match r with
      | c2 :: r2 => if isQuoteChar c2 then some (w, r2) else some (w, r)
      | [] => some (w, [])
  match s with
  | [] => none
  | c :: rest => if isQuoteChar c then core rest else core s

/-- Strip a literal prefix. -/
def stripLit (lit s : List Char) : Option (List Char) :=
  match lit, s with
  | [], s => some s
  | _ :: _, [] => none
  | l :: lt, c :: ct => if c = l then stripLit lt ct else none

/-- Match `lit1 ["']?(\w+)["']? lit2 ["']?(\w+)["']? lit3` at the current
position (the shape shared by the inferrer's two-capture regexes), returning
both captures and the rest after the match. -/
def matchCapture2At (lit1 lit2 lit3 s : List Char) :
    Option (List Char × List Char × List Char) := do
  let r1 ← stripLit lit1 s
  let (c1, r2) ← matchQuotedWord r1
  let r3 ← stripLit lit2 r2
  let (c2, r4) ← matchQuotedWord r3
  let r5 ← stripLit lit3 r4
  some (c1, c2, r5)

/-- Leftmost match of a two-capture pattern (`Regex::captures`). -/
def findCapture2 (lit1 lit2 lit3 : List Char) : List Char → Option (List Char × List Char)
  | [] =>
    match matchCapture2At lit1 lit2 lit3 [] with
    | some (a, b, _) => some (a, b)
    | none => none
  | s@(_ :: tail) =>
    match matchCapture2At lit1 lit2 lit3 s with
    | some (a, b, _) => some (a, b)
    | none => findCapture2 lit1 lit2 lit3 tail

/-- All successive non-overlapping matches of a two-capture pattern
(`Regex::captures_iter`); the fuel is the input length, enough because every
match consumes at least one character. -/
def captures2Aux (lit1 lit2 lit3 : List Char) : List Char → Nat → List (List Char × List Char)
  | _, 0 => []
  | [], _ + 1 => []
  | s@(_ :: tail), fuel + 1 =>
    match matchCapture2At lit1 lit2 lit3 s with
    | some (a, b, rest) => (a, b) :: captures2Aux lit1 lit2 lit3 rest fuel
    | none => captures2Aux lit1 lit2 lit3 tail (fuel + 1 - 1)

/-- `captures_iter` entry point. -/
def captures2 (lit1 lit2 lit3 s : List Char) : List (List Char × List Char) :=
  captures2Aux lit1 lit2 lit3 s s.length

/-- Match `lit ["']?(\w+)["']?` leftmost (`Regex::captures`, one capture). -/
def findCapture1 (lit : List Char) : List Char → Option (List Char)
  | [] =>
    match stripLit lit [] with
    | some r => (matchQuotedWord r).map (·.1)
    | none => none
  | s@(_ :: tail) =>
    match (do
      let r ← stripLit lit s
      let (c1, _) ← matchQuotedWord r
      pure c1 : Option (List Char)) with
    | some c1 => some c1
    | none => findCapture1 lit tail

/-- `suggestions_regex`: `Did you mean (.+)"`.  At the leftmost position
where the literal matches and a `"` follows (with at least one intervening
character, newlines excluded), the greedy `.+` captures everything up to the
*last* such `"`; otherwise the scan continues to the right. -/
def suggestionsCaptureAt (s : List Char) : Option (List Char) := do
  let r ← stripLit "Did you mean ".toList s
  let run := r.takeWhile (fun c => c ≠ '\n')
  let ks := (List.range run.length).filter fun k => 1 ≤ k && run.getD k ' ' = '"'
  let k ← ks.getLast?
  some (run.take k)

/-- Leftmost-first search for the suggestions pattern. -/
def suggestionsCapture : List Char → Option (List Char)
  | [] => none
  | s@(_ :: tail) =>
    match suggestionsCaptureAt s with
    | some cap => some cap
    | none => suggestionsCapture tail

/-- `quoted_word_regex` over `captures_iter`: all `["'](\w+)["']` matches
(both quotes mandatory), scanning left to right, continuing after each
closing quote. -/
def quotedWordsAux : List Char → Nat → List (List Char)
  | _, 0 => []
  | [], _ + 1 => []
  | c :: tail, fuel + 1 =>
    if isQuoteChar c then
      match takeWordRun tail with
      | (w, c2 :: r2) =>
        if !w.isEmpty && isQuoteChar c2 then w :: quotedWordsAux r2 fuel
        else quotedWordsAux tail fuel
      | (_, []) => quotedWordsAux tail fuel
    else quotedWordsAux tail fuel

/-- `captures_iter` entry point for the quoted-word regex. -/
def quotedWords (s : List Char) : List (List Char) :=
  quotedWordsAux s s.length

/-- `subselection_regex`:
`Subselection required for type ["']?(\w+)["']? of field ["']?(\w+)["']?`,
capture 1 the type, capture 2 the field. -/
def subselectionCapture (msg : String) : Option (String × String) :=
  match findCapture2 "Subselection required for type ".toList " of field ".toList [] msg.toList with
  | some (t, f) => some (String.mk t, String.mk f)
  | none => none

/-- `must_have_selection_regex`:
`Field ["']?(\w+)["']? of type ["']?(\w+)["']? must have a selection of subfields`,
capture 1 the field, capture 2 the type. -/
def mustHaveSelectionCapture (msg : String) : Option (String × String) :=
  match findCapture2 "Field ".toList " of type ".toList
      " must have a selection of subfields".toList msg.toList with
  | some (f, t) => some (String.mk f, String.mk t)
  | none => none

/-- `must_not_have_selection_regex`:
`Field ["']?(\w+)["']? must not have a selection since type ["']?(\w+)["']? has no subfields`,
capture 1 the field, capture 2 the type. -/
def mustNotHaveSelectionCapture (msg : String) : Option (String × String) :=
  match findCapture2 "Field ".toList " must not have a selection since type ".toList
      " has no subfields".toList msg.toList with
  | some (f, t) => some (String.mk f, String.mk t)
  | none => none

/-- `field_error_regex` under `captures_iter`:
`Cannot query field ["']?(\w+)["']? on type ["']?(\w+)["']?`. -/
def fieldErrorCaptures (msg : String) : List (String × String) :=
  (captures2 "Cannot query field ".toList " on type ".toList [] msg.toList).map
    fun (f, t) => (String.mk f, String.mk t)

/-- `extract_type_from_error` (src/schema/inference.rs lines 597-613):
try `expected type ["']?(\w+)["']?` first, then `type ["']?(\w+)["']?`. -/
def extract_type_from_error (msg : String) : Option String :=
  match findCapture1 "expected type ".toList msg.toList with
  | some t => some (String.mk t)
  | none =>
    match findCapture1 "type ".toList msg.toList with
    | some t => some (String.mk t)
    | none => none

/-- `InferredArg` (src/schema/inference.rs). -/
structure InferredArg where
  name : String
  type_name : Option String

/-- `InferredField` (src/schema/inference.rs). -/
structure InferredField where
  name : String
  type_name : Option String
  is_list : Bool
  is_non_null : Bool
  args : List InferredArg

/-- `InferredType` (src/schema/inference.rs). -/
structure InferredType where
  name : String
  kind : String
  fields : List InferredField

/-- `InferredSchema` (src/schema/inference.rs). -/
structure InferredSchema where
  query_type : Option InferredType
  mutation_type : Option InferredType
  subscription_type : Option InferredType
  types : List (String × InferredType)

/-- The inferrer's `discovered_types` HashMap, modelled as an association
list with at most one entry per key. -/
abbrev TypesMap := List (String × InferredType)

/-- `HashMap::insert` (replace an existing key in place or append). -/
def typesInsert (m : TypesMap) (k : String) (v : InferredType) : TypesMap :=
  match m with
  | [] => [(k, v)]
  | (k0, v0) :: rest =>
    if k0 = k then (k, v) :: rest else (k0, v0) :: typesInsert rest k v

/-- `HashMap::get`. -/
def typesLookup (m : TypesMap) (k : String) : Option InferredType :=
  match m with
  | [] => none
  | (k0, v0) :: rest => if k0 = k then some v0 else typesLookup rest k

/-- `HashMap::contains_key`. -/
def typesContains (m : TypesMap) (k : String) : Bool :=
  (typesLookup m k).isSome

/-- `SCALAR_TYPES` (src/schema/inference.rs line 7). -/
def SCALAR_TYPES : List String := ["String", "Int", "Float", "Boolean", "ID"]

/-- Rust `str::starts_with(&str)` (computable in the kernel, unlike
`String.startsWith`). -/
def strStartsWith (s pre : String) : Bool :=
  pre.toList.isPrefixOf s.toList

/-- `SchemaInferrer::register_type` (src/schema/inference.rs lines 450-464). -/
def register_type (m : TypesMap) (type_name : String) : TypesMap :=
  if !typesContains m type_name && !SCALAR_TYPES.contains type_name &&
      !strStartsWith type_name "__" then
    typesInsert m type_name ⟨type_name, "OBJECT", []⟩
  else m

/-- `is_valid_graphql_name` (src/schema/inference.rs lines 561-573). -/
def is_valid_graphql_name (name : String) : Bool :=
  match name.toList with
  | [] => false
  | first :: _ =>
    (first.isAlpha || first = '_') &&
    name.toList.all (fun c => c.isAlphanum || c = '_')

/-- `infer_scalar_type` (src/schema/inference.rs lines 575-595). -/
def infer_scalar_type : Json → String
  | .str _ => "String"
  | .num isF64 _ => if isF64 then "Float" else "Int"
  | .bool _ => "Boolean"
  | .arr (first :: _) => infer_scalar_type first
  | .arr [] => "String"
  | _ => "String"

/-- The server oracle: maps a query string to the response of
`post_graphql`, `none` being a transport error. -/
abbrev Server := String → Option GraphQLResponse

/-- `Vec::pop`: remove and return the last element. -/
def popLast : List α → Option (List α × α)
  | [] => none
  | [x] => some ([], x)
  | x :: y :: rest =>
    match popLast (y :: rest) with
    | some (front, last) => some (x :: front, last)
    | none => none

/-- The common argument names probed by `probe_field_args`
(src/schema/inference.rs lines 389-393), in source order (`pop` probes the
last first). -/
def COMMON_ARGS : List String :=
  ["id", "input", "where", "filter", "limit", "offset", "first", "last",
   "after", "before", "orderBy", "order", "sort", "skip", "take", "page",
   "pageSize", "cursor", "data", "name", "email", "query", "search"]

/-- Push every quoted word of a `Did you mean ...` clause of `msg` that is
not in `checked` onto the end of `queue` (src/schema/inference.rs
lines 259-271 and 412-423). -/
def pushSuggestions (msg : String) (checked queue : List String) : List String :=
  match suggestionsCapture msg.toList with
  | none => queue
  | some part =>
    (quotedWords part).foldl
      (fun q w =>
        let suggested := String.mk w
        if checked.contains suggested then q else q.concat suggested)
      queue

/-- The error scan of `probe_field_args` for one response
(src/schema/inference.rs lines 408-441): push argument suggestions, then
record the argument on the first error that is a type-mismatch rather than
an unknown-argument error (the `break`). -/
def processArgErrors (arg_name : String) (errors : List Json)
    (common_args checked_args : List String) (args : List InferredArg) :
    List String × List InferredArg :=
  match errors with
  | [] => (common_args, args)
  | e :: rest =>
    match (e.get "message").bind Json.asStr with
    | none => processArgErrors arg_name rest common_args checked_args args
    | some msg =>
      let common_args := pushSuggestions msg checked_args common_args
      let is_unknown := strContains (asciiLower msg) "unknown argument" ||
        strContains (asciiLower msg) "no argument"
      if !is_unknown && (strContains msg arg_name || strContains msg "expected" ||
          strContains msg "type") then
        (common_args, args.concat ⟨arg_name, extract_type_from_error msg⟩)
      else processArgErrors arg_name rest common_args checked_args args

/-- The work loop of `probe_field_args` (src/schema/inference.rs
lines 395-445).  `none` means the fuel ran out before the queue drained. -/
def probeFieldArgsLoop (server : Server) (field_name operation : String) :
    Nat → List String → List String → List InferredArg → Option (List InferredArg)
  | 0, _, _, _ => none
  | fuel + 1, common_args, checked_args, args =>
    match popLast common_args with
    | none => some args
    | some (rest, arg_name) =>
      if checked_args.contains arg_name then
        probeFieldArgsLoop server field_name operation fuel rest checked_args args
      else
        let checked_args := checked_args.concat arg_name
        let query := operation ++ " \x7b " ++ field_name ++ "(" ++ arg_name ++ ": null) \x7d"
        match server query with
        | none => probeFieldArgsLoop server field_name operation fuel rest checked_args args
        | some resp =>
          match resp.get_errors.bind Json.asArray with
          | none => probeFieldArgsLoop server field_name operation fuel rest checked_args args
          | some arr =>
            let (common_args, args) := processArgErrors arg_name arr rest checked_args args
            probeFieldArgsLoop server field_name operation fuel common_args checked_args args

/-- `SchemaInferrer::probe_field_args` (src/schema/inference.rs
lines 380-448). -/
def probe_field_args (server : Server) (field_name operation : String) (fuel : Nat) :
    Option (List InferredArg) :=
  probeFieldArgsLoop server field_name operation fuel COMMON_ARGS [] []

/-- The `must not have a selection` scan of `probe_field`
(src/schema/inference.rs lines 337-352): each matching error whose captured
field equals the probed name overwrites the field's type. -/
def scanMustNot (field_name : String) (errors : List Json) (field : InferredField) :
    InferredField :=
  errors.foldl
    (fun f e =>
      match (e.get "message").bind Json.asStr with
      | some msg =>
        match mustNotHaveSelectionCapture msg with
        | some (fc, tn) => if fc = field_name then { f with type_name := some tn } else f
        | none => f
      | none => f)
    field

/-- The classification step of `probe_field` on the sub-selection response
(src/schema/inference.rs lines 317-352): list/object detection on `data`
with `__typename` registration, or the must-not-have-selection error
scan. -/
def probeFieldClassify (response : GraphQLResponse) (field_name : String)
    (field : InferredField) (types : TypesMap) : InferredField × TypesMap :=
  if response.has_data then
    match response.get_data with
    | some data =>
      match data.get field_name with
      | some field_data =>
        if field_data.isArr then
          let field := { field with is_list := true }
          match field_data.asArray.bind List.head? with
          | some first =>
            match (first.get "__typename").bind Json.asStr with
            | some typename =>
              ({ field with type_name := some typename }, register_type types typename)
            | none => (field, types)
          | none => (field, types)
        else
          match (field_data.get "__typename").bind Json.asStr with
          | some typename =>
            ({ field with type_name := some typename }, register_type types typename)
          | none => (field, types)
      | none => (field, types)
    | none => (field, types)
  else
    match response.get_errors.bind Json.asArray with
    | some arr => (scanMustNot field_name arr field, types)
    | none => (field, types)

/-- The scalar re-query of `probe_field` when the type is still unknown
(src/schema/inference.rs lines 355-372); the JSON shape of the value gives
the scalar kind.  `none` models the propagated transport `?`. -/
def probeFieldScalarRetry (server : Server) (field_name operation : String)
    (field : InferredField) (types : TypesMap) : Option (InferredField × TypesMap) := do
  let query2 := operation ++ " \x7b " ++ field_name ++ " \x7d"
  let r2 ← server query2
  if r2.has_data then
    match r2.get_data.bind (fun d => d.get field_name) with
    | some value =>
      let field := { field with type_name := some (infer_scalar_type value) }
      let field := { field with is_list := if value.isArr then true else field.is_list }
      some (field, types)
    | none => some (field, types)
  else some (field, types)

/-- `SchemaInferrer::probe_field` (src/schema/inference.rs lines 300-378).
`none` models a propagated transport error (the `?` operators) or exhausted
fuel in the argument probe. -/
def probe_field (server : Server) (field_name operation : String) (types : TypesMap)
    (fuel : Nat) : Option (InferredField × TypesMap) := do
  let field : InferredField :=
    ⟨field_name, none, false, false, []⟩
  let query := operation ++ " \x7b " ++ field_name ++ " \x7b __typename \x7d \x7d"
  let response ← server query
  let (field, types) := probeFieldClassify response field_name field types
  let (field, types) ←
    if field.type_name.isNone then
      probeFieldScalarRetry server field_name operation field types
    else some (field, types)
  let args ← probe_field_args server field_name operation fuel
  some ({ field with args := args }, types)

/-- The field-detection scan over error messages in `probe_root_type`
(src/schema/inference.rs lines 186-246), entered with `found_field = None`.
Branch 1 matches the subselection-required pattern (capture 1 the type,
capture 2 the field) and may overwrite an earlier find; branch 2, guarded by
`found_field.is_none()`, matches the must-have-selection pattern (capture 1
the field, capture 2 the type).  A matching branch registers the type and
probes the field's arguments; `none` models the propagated `?` of the
argument probe. -/
def scanFieldErrors (server : Server) (word operation : String) (fuel : Nat) :
    List Json → Option InferredField × TypesMap → Option (Option InferredField × TypesMap)
  | [], st => some st
  | e :: rest, (found, types) =>
    match (e.get "message").bind Json.asStr with
    | none => scanFieldErrors server word operation fuel rest (found, types)
    | some msg =>
      let step1 : Option (Option InferredField × TypesMap) :=
        match subselectionCapture msg with
        | some (type_name, field_name_cap) =>
          if field_name_cap = word then
            let types := register_type types type_name
            match probe_field_args server word operation fuel with
            | none => none
            | some args =>
              some (some ⟨word, some type_name, false, false, args⟩, types)
          else some (found, types)
        | none => some (found, types)
      match step1 with
      | none => none
      | some (found1, types1) =>
        if found1.isNone then
          match mustHaveSelectionCapture msg with
          | some (field_name_cap, type_name) =>
            if field_name_cap = word then
              let types2 := register_type types1 type_name
              match probe_field_args server word operation fuel with
              | none => none
              | some args =>
                scanFieldErrors server word operation fuel rest
                  (some ⟨word, some type_name, false, false, args⟩, types2)
            else scanFieldErrors server word operation fuel rest (found1, types1)
          | none => scanFieldErrors server word operation fuel rest (found1, types1)
        else scanFieldErrors server word operation fuel rest (found1, types1)

/-- The suggestion-harvesting and type-harvesting pass over the response's
errors (src/schema/inference.rs lines 253-294): extend the work queue with
`Did you mean` words not yet attempted, and register every `Cannot query
field .. on type T` type name that is neither present nor a built-in
scalar. -/
def processProbeErrors (response : GraphQLResponse) (checked queue : List String)
    (types : TypesMap) : List String × TypesMap :=
  match response.get_errors.bind Json.asArray with
  | none => (queue, types)
  | some arr =>
    arr.foldl
      (fun (st : List String × TypesMap) e =>
        match (e.get "message").bind Json.asStr with
        | none => st
        | some msg =>
          let q := pushSuggestions msg checked st.1
          let t :=
            (fieldErrorCaptures msg).foldl
              (fun (t : TypesMap) cap =>
                let type_str := cap.2
                if !typesContains t type_str && !SCALAR_TYPES.contains type_str then
                  typesInsert t type_str ⟨type_str, "OBJECT", []⟩
                else t)
              st.2
          (q, t))
      (queue, types)

/-- The work loop of `SchemaInferrer::probe_root_type`
(src/schema/inference.rs lines 145-298), fuel-indexed.  State: the work
queue (`Vec`, popped from the back), the attempted set `checked_words`
(insertion order), the accumulated fields and the discovered-types map.
Returns the fields, the map and the attempted set; `none` models exhausted
fuel or a propagated transport error.  The write-only `discovered_fields`
set of the struct is omitted (it is never read). -/
def probeRootLoop (server : Server) (operation : String) :
    Nat → List String → List String → List InferredField → TypesMap →
    Option (List InferredField × TypesMap × List String)
  | 0, _, _, _, _ => none
  | fuel + 1, words_to_check, checked_words, fields, types =>
    match popLast words_to_check with
    | none => some (fields, types, checked_words)
    | some (rest, word) =>
      if checked_words.contains word then
        probeRootLoop server operation fuel rest checked_words fields types
      else
        let checked_words := checked_words.concat word
        if !is_valid_graphql_name word then
          probeRootLoop server operation fuel rest checked_words fields types
        else
          let query := operation ++ " \x7b " ++ word ++ " \x7d"
          match server query with
          | none => probeRootLoop server operation fuel rest checked_words fields types
          | some response =>
            let direct_hit := response.has_data &&
              (match response.get_data with
               | some data => (data.get word).isSome
               | none => false)
            let afterFound : Option (Option InferredField × TypesMap) :=
              if direct_hit then
                match probe_field server word operation types fuel with
                | none => none
                | some (f, types) => some (some f, types)
              else
                match response.get_errors.bind Json.asArray with
                | some arr => scanFieldErrors server word operation fuel arr (none, types)
                | none => some (none, types)
            match afterFound with
            | none => none
            | some (found, types) =>
              let fields :=
                match found with
                | some f => fields.concat f
                | none => fields
              let (queue, types) := processProbeErrors response checked_words rest types
              probeRootLoop server operation fuel queue checked_words fields types

/-- `SchemaInferrer::infer` (src/schema/inference.rs lines 87-143): probe
the three root operations in turn against the shared discovered-types map,
recording a root type when its probing found fields. -/
def infer (server : Server) (wordlist : List String) (fuel : Nat) :
    Option InferredSchema := do
  let (query_fields, types, _) ← probeRootLoop server "query" fuel wordlist [] [] []
  let types :=
    if !query_fields.isEmpty then
      typesInsert types "Query" ⟨"Query", "OBJECT", query_fields⟩
    else types
  let (mutation_fields, types, _) ← probeRootLoop server "mutation" fuel wordlist [] [] types
  let types :=
    if !mutation_fields.isEmpty then
      typesInsert types "Mutation" ⟨"Mutation", "OBJECT", mutation_fields⟩
    else types
  let (subscription_fields, types, _) ←
    probeRootLoop server "subscription" fuel wordlist [] [] types
  let types :=
    if !subscription_fields.isEmpty then
      typesInsert types "Subscription" ⟨"Subscription", "OBJECT", subscription_fields⟩
    else types
  some { query_type := typesLookup types "Query",
         mutation_type := typesLookup types "Mutation",
         subscription_type := typesLookup types "Subscription",
         types := types }

/-- The fixed scalar preamble entry of `to_introspection_format`
(src/schema/inference.rs lines 470-481). -/
def scalarTypeEntry (name : String) : Json :=
  Json.obj [("kind", Json.str "SCALAR"), ("name", Json.str name),
    ("description", Json.null), ("fields", Json.null), ("inputFields", Json.null),
    ("interfaces", Json.arr []), ("enumValues", Json.null), ("possibleTypes", Json.null)]

/-- Argument rendering of `to_introspection_format`
(src/schema/inference.rs lines 489-504). -/
def inferredArgJson (a : InferredArg) : Json :=
  Json.obj [("name", Json.str a.name), ("description", Json.null),
    ("type", Json.obj [("kind", Json.str "SCALAR"),
      ("name", Json.str (a.type_name.getD "String")), ("ofType", Json.null)]),
    ("defaultValue", Json.null)]

/-- Type-reference rendering of `to_introspection_format`
(src/schema/inference.rs lines 506-522). -/
def inferredTypeRefJson (f : InferredField) : Json :=
  let baseKind : Json :=
    if SCALAR_TYPES.contains (f.type_name.getD "") then Json.str "SCALAR"
    else Json.str "OBJECT"
  let baseName := Json.str (f.type_name.getD "String")
  if f.is_list then
    Json.obj [("kind", Json.str "LIST"), ("name", Json.null),
      ("ofType", Json.obj [("kind", baseKind), ("name", baseName), ("ofType", Json.null)])]
  else
    Json.obj [("kind", baseKind), ("name", baseName), ("ofType", Json.null)]

/-- Field rendering of `to_introspection_format`
(src/schema/inference.rs lines 524-531). -/
def inferredFieldJson (f : InferredField) : Json :=
  Json.obj [("name", Json.str f.name), ("description", Json.null),
    ("args", Json.arr (f.args.map inferredArgJson)),
    ("type", inferredTypeRefJson f),
    ("isDeprecated", Json.bool false), ("deprecationReason", Json.null)]

/-- Discovered-type rendering of `to_introspection_format`
(src/schema/inference.rs lines 535-544). -/
def inferredTypeJson (t : InferredType) : Json :=
  Json.obj [("kind", Json.str t.kind), ("name", Json.str t.name),
    ("description", Json.null),
    ("fields", if t.fields.isEmpty then Json.null
      else Json.arr (t.fields.map inferredFieldJson)),
    ("inputFields", Json.null), ("interfaces", Json.arr []),
    ("enumValues", Json.null), ("possibleTypes", Json.null)]

/-- Root-type reference rendering (`.map(|t| json!({"name": t.name}))`,
`None` serializing to `null`). -/
def rootTypeNameJson : Option InferredType → Json
  | some t => Json.obj [("name", Json.str t.name)]
  | none => Json.null

/-- `SchemaInferrer::to_introspection_format`
(src/schema/inference.rs lines 466-558): the built-in scalar preamble
followed by the discovered types, wrapped as `data.__schema`. -/
def to_introspection_format (schema : InferredSchema) : Json :=
  let types := SCALAR_TYPES.map scalarTypeEntry ++
    schema.types.map (fun p => inferredTypeJson p.2)
  Json.obj [("data", Json.obj [("__schema", Json.obj
    [("queryType", rootTypeNameJson schema.query_type),
     ("mutationType", rootTypeNameJson schema.mutation_type),
     ("subscriptionType", rootTypeNameJson schema.subscription_type),
     ("types", Json.arr types),
     ("directives", Json.arr [])])])]

/-- Number of entries named `s` in the `data.__schema.types` array of an
introspection document. -/
def countTypesNamed (j : Json) (s : String) : Nat :=
  (((((j.get "data").bind (fun d => d.get "__schema")).bind
      (fun sc => sc.get "types")).bind Json.asArray).getD []).countP
    (fun e =>
      match e.get "name" with
      | some (Json.str n) => n = s
      | _ => false)

/-- Introspection type reference (`TypeRef` in src/schema/introspection.rs)
with its recursive `of_type : Option<Box<TypeRef>>` unfolded into two
constructors: `base kind name` is `of_type = None`, `wrap kind name inner`
is `of_type = Some inner`. -/
inductive TypeRef where
  | base (kind : String) (name : Option String)
  | wrap (kind : String) (name : Option String) (inner : TypeRef)

/-- `TypeRef::get_base_type_name` (src/schema/introspection.rs
lines 217-225). -/
def TypeRef.get_base_type_name : TypeRef → Option String
  | .base _ name => name
  | .wrap _ name inner =>
    match name with
    | some n => some n
    | none => inner.get_base_type_name

/-- `TypeRef::is_list` (src/schema/introspection.rs lines 227-235). -/
def TypeRef.is_list : TypeRef → Bool
  | .base kind _ => kind = "LIST"
  | .wrap kind _ inner => kind = "LIST" || inner.is_list

/-- Introspection `InputValue` (src/schema/introspection.rs). -/
structure InputValue where
  name : String
  description : Option String
  input_type : TypeRef
  default_value : Option String

/-- Introspection `Field` (src/schema/introspection.rs). -/
structure SchemaField where
  name : String
  description : Option String
  args : List InputValue
  field_type : TypeRef
  is_deprecated : Bool
  deprecation_reason : Option String

/-- Introspection `EnumValue` (src/schema/introspection.rs). -/
structure EnumValue where
  name : String
  description : Option String
  is_deprecated : Bool
  deprecation_reason : Option String

/-- Introspection `FullType` (src/schema/introspection.rs). -/
structure FullType where
  kind : String
  name : Option String
  description : Option String
  fields : Option (List SchemaField)
  input_fields : Option (List InputValue)
  interfaces : Option (List TypeRef)
  enum_values : Option (List EnumValue)
  possible_types : Option (List TypeRef)

/-- Introspection `TypeName` (src/schema/introspection.rs); named
`RootTypeName` here because `TypeName` already exists in the Lean library. -/
structure RootTypeName where
  name : String

/-- Introspection `Directive` (src/schema/introspection.rs). -/
structure Directive where
  name : String
  description : Option String
  locations : List String
  args : List InputValue

/-- Introspection `SchemaInner` (src/schema/introspection.rs). -/
structure SchemaInner where
  query_type : Option RootTypeName
  mutation_type : Option RootTypeName
  subscription_type : Option RootTypeName
  types : List FullType
  directives : List Directive

/-- Introspection `Schema` (src/schema/introspection.rs). -/
structure Schema where
  schema : SchemaInner

/-- `Schema::get_query_type` (src/schema/introspection.rs lines 184-187). -/
def Schema.get_query_type (s : Schema) : Option FullType := do
  let qname ← s.schema.query_type
  s.schema.types.find? (fun t => t.name = some qname.name)

/-- `Schema::get_type` (src/schema/introspection.rs lines 199-201). -/
def Schema.get_type (s : Schema) (name : String) : Option FullType :=
  s.schema.types.find? (fun t => t.name = some name)

/-- The recursive-chain search of `DepthLimit::run`
(src/tests/dos.rs lines 262-285): the first root field whose base type has
a field whose base type is the same type, yielding the pair
(root field name, recursive field name). -/
def depthLimitChain (start_type : FullType) (schema : Schema) : Option (String × String) :=
  match start_type.fields with
  | none => none
  | some fields =>
    fields.findSome? fun field =>
      match field.field_type.get_base_type_name with
      | none => none
      | some base_type_name =>
        match schema.get_type base_type_name with
        | none => none
        | some base_type =>
          match base_type.fields with
          | none => none
          | some inner_fields =>
            inner_fields.findSome? fun inner_field =>
              match inner_field.field_type.get_base_type_name with
              | some inner_base_name =>
                if inner_base_name = base_type_name then
                  some (field.name, inner_field.name)
                else none
              | none => none

/-- The nested selection of the depth-limit payload
(src/tests/dos.rs lines 290-294): starting from `__typename`, wrap `depth`
times in the recursive field. -/
def depthNest (recursive_field : String) : Nat → String
  | 0 => "__typename"
  | n + 1 => recursive_field ++ " \x7b " ++ depthNest recursive_field n ++ " \x7d"

/-- The deep query issued by the depth-limit probe
(src/tests/dos.rs lines 287-295), 64 levels of the recursive field. -/
def depthLimitQuery (root_field recursive_field : String) : String :=
  "query \x7b " ++ root_field ++ " \x7b " ++ depthNest recursive_field 64 ++ " \x7d \x7d"

/-- Whether the serialized errors value mentions `depth` or `complexity`
after lowercasing (src/tests/dos.rs lines 317-321). -/
def depthErrorMentions (errors : Json) : Bool :=
  strContains (asciiLower errors.serialize) "depth" ||
  strContains (asciiLower errors.serialize) "complexity"

/-- Verdict of the depth-limit probe on the response to the deep query
(src/tests/dos.rs lines 317-324). -/
def depth_limit_verdict (r : GraphQLResponse) : Bool :=
  match r.get_errors with
  | some errors => !depthErrorMentions errors
  | none => r.has_data

/-- `Severity` (src/tests/mod.rs). -/
inductive Severity where
  | high
  | medium
  | low
  | info
deriving DecidableEq

/-- `TestResult` (src/tests/mod.rs), metadata fields included. -/
structure TestResult where
  name : String
  title : String
  description : String
  impact : String
  severity : Severity
  vulnerable : Bool
  curl_command : String

/-- A depth-limit test result with the probe's fixed metadata. -/
def depthLimitResult (vulnerable : Bool) (curl : String) : TestResult :=
  { name := "depth_limit", title := "Depth Limit Detection",
    description := "Server accepts deeply nested queries",
    impact := "Denial of Service via stack overflow or resource exhaustion",
    severity := Severity.high, vulnerable := vulnerable, curl_command := curl }

/-- `DepthLimit::run` (src/tests/dos.rs lines 226-335).  `fetched` is the
outcome of `fetch_schema` (`none` = introspection failed); `server` answers
the deep query; the result's `none` models the propagated transport `?`. -/
def depth_limit_run (fetched : Option Schema) (server : Server) : Option TestResult :=
  match fetched with
  | none => some (depthLimitResult false "Introspection failed, cannot build deep query")
  | some schema =>
    match schema.get_query_type with
    | none => some (depthLimitResult false "No Query type found")
    | some start_type =>
      match depthLimitChain start_type schema with
      | none => some (depthLimitResult false "No simple recursive path found in schema")
      | some (root_field, recursive_field) =>
        match server (depthLimitQuery root_field recursive_field) with
        | none => none
        | some response =>
          some (depthLimitResult (depth_limit_verdict response) response.curl_command)

/-- A server for which every request fails at the transport level. -/
def nullServer : Server := fun _ => none

/-- A GraphQL error object holding only a message. -/
def errObj (msg : String) : Json :=
  Json.obj [("message", Json.str msg)]

/-- The error message of end-to-end scenario 2 of the spec. -/
def c2Message : String :=
  "Cannot query field \"xyz\" on type \"Query\". Did you mean \"user\", \"users\"?"

/-- The scenario-2 response: a single error carrying `c2Message`. -/
def c2Response : GraphQLResponse :=
  ⟨200, Json.obj [("errors", Json.arr [errObj c2Message])], ""⟩

/-- The scenario-2 server: every probe is answered with `c2Response`. -/
def c2Server : Server := fun _ => some c2Response

/-- A subselection-required message whose captured type is the built-in
scalar name `String`. -/
def c3ScalarMsg : String :=
  "Subselection required for type \"String\" of field \"me\""

/-- The subselection-required message of end-to-end scenario 3 of the
spec. -/
def c3UserMsg : String :=
  "Subselection required for type \"User\" of field \"me\""

/-- A type reference to the object type `User`. -/
def userTypeRef : TypeRef := TypeRef.base "OBJECT" (some "User")

/-- A root field `me : User`. -/
def c4MeField : SchemaField :=
  { name := "me", description := none, args := [], field_type := userTypeRef,
    is_deprecated := false, deprecation_reason := none }

/-- A recursive field `friend : User` on `User`. -/
def c4FriendField : SchemaField :=
  { name := "friend", description := none, args := [], field_type := userTypeRef,
    is_deprecated := false, deprecation_reason := none }

/-- The `Query` type of the recursive demonstration schema. -/
def c4QueryType : FullType :=
  { kind := "OBJECT", name := some "Query", description := none,
    fields := some [c4MeField], input_fields := none, interfaces := none,
    enum_values := none, possible_types := none }

/-- The `User` type of the recursive demonstration schema. -/
def c4UserType : FullType :=
  { kind := "OBJECT", name := some "User", description := none,
    fields := some [c4FriendField], input_fields := none, interfaces := none,
    enum_values := none, possible_types := none }

/-- A schema with the two-hop recursion `Query.me : User`,
`User.friend : User`. -/
def c4Schema : Schema :=
  ⟨⟨some ⟨"Query"⟩, none, none, [c4QueryType, c4UserType], []⟩⟩

/-- A response whose body is the empty object: neither `data` nor
`errors`. -/
def emptyBodyResponse : GraphQLResponse := ⟨200, Json.obj [], "curl"⟩

/-- A server answering every request with the empty-object body. -/
def emptyBodyServer : Server := fun _ => some emptyBodyResponse

/-- A successful response whose *top-level* `extensions` object carries
`tracing` (the standard place for tracing data), with no `errors`. -/
def c5TopLevelTracing : GraphQLResponse :=
  ⟨200, Json.obj [("data", Json.obj [("__typename", Json.str "Query")]),
    ("extensions", Json.obj [("tracing", Json.obj [])])], ""⟩

/-- A response returning an empty `data` object and nothing else. -/
def c6EmptyData : GraphQLResponse :=
  ⟨200, Json.obj [("data", Json.obj [])], ""⟩

/-- The empty-field OBJECT stub inserted by `register_type` and by the
`Cannot query field` harvesting. -/
def objectStub (type_name : String) : InferredType :=
  ⟨type_name, "OBJECT", []⟩

/-- The types map holds no entry whose name is a built-in scalar. -/
def scalarFree (m : TypesMap) : Prop :=
  ∀ p ∈ m, SCALAR_TYPES.contains p.2.name = false

/-! ## Theorems -/

/-- C7: the circular-introspection verdict is vulnerable exactly when
`data.__schema.types` is an array of length strictly greater than 25. -/
theorem C7_circular_threshold (r : GraphQLResponse) :
    circular_introspection_vulnerable r = true ↔
    (∃ data schema types arr, r.get_data = some data ∧
      data.get "__schema" = some schema ∧ schema.get "types" = some types ∧
      types.asArray = some arr ∧ 25 < arr.length) := by
  unfold circular_introspection_vulnerable
  constructor
  · intro h
    split at h
    case _ data hdata =>
      split at h
      case _ schema hschema =>
        split at h
        case _ types htypes =>
          split at h
          case _ arr harr =>
            exact ⟨data, schema, types, arr, hdata, hschema, htypes, harr, by
              exact of_decide_eq_true h⟩
          case _ => exact absurd h (by simp)
        case _ => exact absurd h (by simp)
      case _ => exact absurd h (by simp)
    case _ => exact absurd h (by simp)
  · rintro ⟨data, schema, types, arr, hdata, hschema, htypes, harr, hlen⟩
    simp only [hdata, hschema, htypes, harr]
    exact decide_eq_true hlen

/-- C5 counterexample: a response whose top-level `extensions` object does
contain `tracing`, yet the trace-mode probe reports not vulnerable, because
the code reads the first error's `extensions` instead of the response's. -/
theorem C5_counterexample :
    trace_mode_vulnerable c5TopLevelTracing = false ∧
    ((spec_response_extensions c5TopLevelTracing).bind
      (fun e => e.get "tracing")).isSome = true :=
  ⟨rfl, rfl⟩

/-- C5 (amended): the trace-mode probe reports vulnerable exactly when the
`extensions` member of the first element of the response's `errors` array
contains a `tracing` field. -/
theorem C5_trace_mode_amended (r : GraphQLResponse) :
    trace_mode_vulnerable r = true ↔
    (∃ ext, r.get_extensions = some ext ∧ (ext.get "tracing").isSome = true) := by
  unfold trace_mode_vulnerable
  constructor
  · intro h
    split at h
    case _ ext hext => exact ⟨ext, hext, h⟩
    case _ => exact absurd h (by simp)
  · rintro ⟨ext, hext, htr⟩
    simp only [hext]
    exact htr

/-- C6 counterexample: a response with `"data": {}` returns data, yet the
GET-mutation probe reports not vulnerable, because the data branch requires
`data.__typename` and the error branch is not consulted. -/
theorem C6_counterexample :
    get_mutation_vulnerable c6EmptyData = false ∧
    (c6EmptyData.get_data).isSome = true :=
  ⟨rfl, rfl⟩

/-- C6 (amended): the GET-mutation verdict is vulnerable exactly when the
returned data contains `__typename`, or, when no data member is present,
when the first error message mentions none of `get`, `not allowed`, `only`
(case-insensitively); otherwise it is not vulnerable. -/
theorem C6_get_mutation_amended (r : GraphQLResponse) :
    get_mutation_vulnerable r = true ↔
    ((∃ data, r.get_data = some data ∧ (data.get "__typename").isSome = true) ∨
     (r.get_data = none ∧ ∃ msg, r.get_first_error_message = some msg ∧
       strContains (asciiLower msg) "get" = false ∧
       strContains (asciiLower msg) "not allowed" = false ∧
       strContains (asciiLower msg) "only" = false)) := by
  unfold get_mutation_vulnerable
  constructor
  · intro h
    split at h
    case _ data hdata => exact Or.inl ⟨data, hdata, h⟩
    case _ hdata =>
      split at h
      case _ msg hmsg =>
        simp only [Bool.and_eq_true, Bool.not_eq_true'] at h
        exact Or.inr ⟨hdata, msg, hmsg, h.1.1, h.1.2, h.2⟩
      case _ => exact absurd h (by simp)
  · rintro (⟨data, hdata, ht⟩ | ⟨hdata, msg, hmsg, h1, h2, h3⟩)
    · simp only [hdata]
      exact ht
    · simp only [hdata, hmsg, h1, h2, h3]
      rfl

/-- The data branch of the detector characterized: true exactly when
`data.__typename` is a string equal to one of the four root sentinels. -/
theorem detectionDataHit_iff (r : GraphQLResponse) :
    detectionDataHit r = true ↔
    (∃ data name, r.get_data = some data ∧
      data.get "__typename" = some (Json.str name) ∧
      (name = "Query" ∨ name = "QueryRoot" ∨ name = "query_root" ∨ name = "Root")) := by
  unfold detectionDataHit
  rcases hd : r.get_data with _ | data
  · simp [hd]
  · simp only [hd]
    rcases ht : data.get "__typename" with _ | j
    · simp [ht]
    · cases j <;> simp [ht, valid_roots]

/-- The errors branch of the detector characterized: true exactly when some
element of the `errors` array carries `locations` or `extensions`. -/
theorem detectionErrorsHit_iff (r : GraphQLResponse) :
    detectionErrorsHit r = true ↔
    (∃ errors arr, r.get_errors = some errors ∧ errors.asArray = some arr ∧
      ∃ e ∈ arr, ((e.get "locations").isSome = true ∨ (e.get "extensions").isSome = true)) := by
  unfold detectionErrorsHit
  rcases he : r.get_errors with _ | errors
  · simp [he]
  · simp only [he]
    rcases ha : errors.asArray with _ | arr
    · simp [ha]
    · simp [ha, List.any_eq_true]

/-- C1: the detector returns true exactly when `data.__typename` is a
string equal to one of Query, QueryRoot, query_root, Root, or the `errors`
array contains an element carrying `locations` or `extensions`; false for
every other response. -/
theorem C1_detector_characterization (r : GraphQLResponse) :
    is_graphql_endpoint r = true ↔
    ((∃ data name, r.get_data = some data ∧
        data.get "__typename" = some (Json.str name) ∧
        (name = "Query" ∨ name = "QueryRoot" ∨ name = "query_root" ∨ name = "Root")) ∨
     (∃ errors arr, r.get_errors = some errors ∧ errors.asArray = some arr ∧
        ∃ e ∈ arr, ((e.get "locations").isSome = true ∨ (e.get "extensions").isSome = true))) := by
  unfold is_graphql_endpoint
  rw [Bool.or_eq_true, detectionDataHit_iff, detectionErrorsHit_iff]

/-- C10: when the body is not valid JSON, construction still succeeds and
stores the sentinel object, which has neither `data` nor `errors`, so the
detector and the probe verdicts all see an empty response rather than a
transport error. -/
theorem C10_parse_failure_sentinel (status : Nat) (curl : String) :
    (from_response status none curl).body = parseFailureSentinel ∧
    (from_response status none curl).has_data = false ∧
    (from_response status none curl).has_errors = false ∧
    (from_response status none curl).get_data = none ∧
    (from_response status none curl).get_errors = none ∧
    (from_response status none curl).get_first_error_message = none ∧
    (from_response status none curl).get_extensions = none ∧
    is_graphql_endpoint (from_response status none curl) = false ∧
    circular_introspection_vulnerable (from_response status none curl) = false ∧
    trace_mode_vulnerable (from_response status none curl) = false ∧
    get_mutation_vulnerable (from_response status none curl) = false ∧
    depth_limit_verdict (from_response status none curl) = false :=
  ⟨rfl, rfl, rfl, rfl, rfl, rfl, rfl, rfl, rfl, rfl, rfl, rfl⟩

/-- C2: evaluating the root-probe loop on spec scenario 2 (seed wordlist
`["xyz"]`, every probe answered with the `Did you mean "user", "users"?`
error).  The attempted set ends as exactly `xyz` and `user`: the
suggestion regex `Did you mean (.+)"` consumes the message's final
double-quote, so the last suggested word `users` is never extracted, contra
the claim that `xyz`, `user` and `users` all end up attempted. -/
theorem C2_suggestion_truncation_bug :
    probeRootLoop c2Server "query" 10 ["xyz"] [] [] [] =
      some ([], [("Query", ⟨"Query", "OBJECT", []⟩)], ["xyz", "user"]) ∧
    (["xyz", "user"] : List String).contains "users" = false :=
  ⟨rfl, rfl⟩

/-- The nested selection built by the depth-limit probe is 64 iterated
wrappings of the recursive field around `__typename`. -/
theorem depthNest_eq_iterate (recursive_field : String) (n : Nat) :
    depthNest recursive_field n =
      (fun s => recursive_field ++ " \x7b " ++ s ++ " \x7d")^[n] "__typename" := by
  induction n with
  | zero => rfl
  | succ n ih =>
    rw [Function.iterate_succ_apply']
    simpa [depthNest] using congrArg (fun s => recursive_field ++ " \x7b " ++ s ++ " \x7d") ih

/-- C4 counterexample: with a schema holding the recursion
`Query.me : User`, `User.friend : User` and a server answering the deep
query with an empty object (no `data`, no `errors`), the probe reports NOT
vulnerable, although the (absent) errors do not mention `depth` or
`complexity`, contra the claim's "vulnerable unless the errors mention
depth or complexity". -/
theorem C4_counterexample :
    depth_limit_run (some c4Schema) emptyBodyServer =
      some (depthLimitResult false "curl") ∧
    emptyBodyResponse.get_errors = none :=
  ⟨rfl, rfl⟩

/-- C4 (amended): when a two-hop recursive path is found, the issued
selection wraps the recursive field 64 times around `__typename`, and the
verdict is vulnerable iff either errors are present and do not mention
`depth`/`complexity` (on the lowercased serialized errors value), or no
errors are present and data is; when no recursive path is discoverable the
probe returns a non-vulnerable result whose reproducer string is the
diagnostic message. -/
theorem C4_depth_limit_amended :
    (∀ (schema : Schema) (st : FullType) (rf rc : String) (server : Server)
        (resp : GraphQLResponse),
      schema.get_query_type = some st →
      depthLimitChain st schema = some (rf, rc) →
      server (depthLimitQuery rf rc) = some resp →
      depthLimitQuery rf rc =
        "query \x7b " ++ rf ++ " \x7b " ++
          (fun s => rc ++ " \x7b " ++ s ++ " \x7d")^[64] "__typename" ++ " \x7d \x7d" ∧
      depth_limit_run (some schema) server =
        some (depthLimitResult (depth_limit_verdict resp) resp.curl_command) ∧
      (depth_limit_verdict resp = true ↔
        ((∃ errors, resp.get_errors = some errors ∧ depthErrorMentions errors = false) ∨
         (resp.get_errors = none ∧ resp.has_data = true)))) ∧
    (∀ (schema : Schema) (st : FullType) (server : Server),
      schema.get_query_type = some st →
      depthLimitChain st schema = none →
      depth_limit_run (some schema) server =
        some (depthLimitResult false "No simple recursive path found in schema")) := by
  constructor
  · intro schema st rf rc server resp hq hc hs
    refine ⟨?_, ?_, ?_⟩
    · rw [depthLimitQuery, depthNest_eq_iterate]
    · unfold depth_limit_run
      simp only [hq, hc, hs]
    · unfold depth_limit_verdict
      rcases he : resp.get_errors with _ | errors
      · simp [he]
      · simp [he, Bool.not_eq_true']
  · intro schema st server hq hc
    unfold depth_limit_run
    simp only [hq, hc]

/-- C4 witness: the amended depth-limit theorem instantiated on the
concrete recursive schema and the empty-body server. -/
theorem C4_witness :
    depthLimitQuery "me" "friend" =
      "query \x7b " ++ "me" ++ " \x7b " ++
        (fun s => "friend" ++ " \x7b " ++ s ++ " \x7d")^[64] "__typename" ++ " \x7d \x7d" ∧
    depth_limit_run (some c4Schema) emptyBodyServer =
      some (depthLimitResult (depth_limit_verdict emptyBodyResponse)
        emptyBodyResponse.curl_command) ∧
    (depth_limit_verdict emptyBodyResponse = true ↔
      ((∃ errors, emptyBodyResponse.get_errors = some errors ∧
          depthErrorMentions errors = false) ∨
       (emptyBodyResponse.get_errors = none ∧ emptyBodyResponse.has_data = true))) :=
  C4_depth_limit_amended.1 c4Schema c4QueryType "me" "friend" emptyBodyServer
    emptyBodyResponse rfl rfl rfl

/-- The head of a `dropWhile` result falsifies the predicate. -/
theorem dropWhile_head_false (p : Char → Bool) :
    ∀ (l : List Char) (c : Char), (l.dropWhile p).head? = some c → p c = false := by
  intro l
  induction l with
  | nil => intro c h; simp at h
  | cons a t ih =>
    intro c h
    rw [List.dropWhile_cons] at h
    by_cases hpa : p a = true
    · rw [if_pos hpa] at h
      exact ih c h
    · rw [if_neg hpa] at h
      simp only [List.head?_cons, Option.some.injEq] at h
      rw [← h]
      exact Bool.not_eq_true _ ▸ eq_false_of_ne_true hpa

/-- `dropWhile` is the identity when the head already falsifies the
predicate. -/
theorem dropWhile_eq_self_of_head (p : Char → Bool) (l : List Char)
    (h : ∀ c, l.head? = some c → p c = false) : l.dropWhile p = l := by
  cases l with
  | nil => rfl
  | cons a t =>
    rw [List.dropWhile_cons, if_neg]
    simp [h a rfl]

/-- The last character of a trimmed string is not whitespace. -/
theorem trimChars_getLast_false (l : List Char) (c : Char)
    (h : (trimChars l).getLast? = some c) : isRustWhitespace c = false := by
  unfold trimChars at h
  rw [List.getLast?_reverse] at h
  exact dropWhile_head_false isRustWhitespace _ c h

/-- `trim` fixes any string whose first and last characters are not
whitespace. -/
theorem trimChars_eq_self (x : List Char)
    (hhead : ∀ c, x.head? = some c → isRustWhitespace c = false)
    (hlast : ∀ c, x.getLast? = some c → isRustWhitespace c = false) :
    trimChars x = x := by
  unfold trimChars
  rw [dropWhile_eq_self_of_head isRustWhitespace x hhead]
  rw [dropWhile_eq_self_of_head isRustWhitespace x.reverse
    (fun c hc => hlast c (by rwa [List.head?_reverse] at hc))]
  exact List.reverse_reverse x

/-- Shape of every output entry of the wordlist normalization: it starts
with `/` and neither starts nor ends in whitespace. -/
theorem mem_normalize_shape (e : List Char) (lines : List (List Char))
    (he : e ∈ normalize_wordlist lines) :
    e.head? = some '/' ∧ (∀ c, e.getLast? = some c → isRustWhitespace c = false) := by
  unfold normalize_wordlist at he
  obtain ⟨x, hx, hpe⟩ := List.mem_map.mp he
  obtain ⟨hxm, hq⟩ := List.mem_filter.mp hx
  obtain ⟨l, _, hl⟩ := List.mem_map.mp hxm
  simp only [Bool.and_eq_true, Bool.not_eq_true'] at hq
  have hxlast : ∀ c, x.getLast? = some c → isRustWhitespace c = false := by
    intro c hc
    exact trimChars_getLast_false l c (hl ▸ hc)
  have hxne : x ≠ [] := by
    intro hnil
    rw [hnil] at hq
    simp at hq
  by_cases hslash : startsWithChar x '/' = true
  · rw [if_pos hslash] at hpe
    subst hpe
    constructor
    · cases x with
      | nil => exact absurd rfl hxne
      | cons c0 t =>
        simp only [startsWithChar, decide_eq_true_eq] at hslash
        rw [hslash]
        rfl
    · exact hxlast
  · rw [if_neg hslash] at hpe
    subst hpe
    refine ⟨rfl, ?_⟩
    intro c hc
    cases x with
    | nil => exact absurd rfl hxne
    | cons b t =>
      rw [List.getLast?_cons_cons] at hc
      exact hxlast c hc

/-- The normalization fixes any list all of whose entries start with `/`
and do not end in whitespace. -/
theorem normalize_fix (L : List (List Char))
    (h : ∀ e ∈ L, e.head? = some '/' ∧
      (∀ c, e.getLast? = some c → isRustWhitespace c = false)) :
    normalize_wordlist L = L := by
  induction L with
  | nil => rfl
  | cons e rest ih =>
    obtain ⟨hhead, hlast⟩ := h e (List.mem_cons_self e rest)
    have hrest := ih (fun x hx => h x (List.mem_cons_of_mem e hx))
    have hne : e ≠ [] := by
      intro hnil
      rw [hnil] at hhead
      simp at hhead
    have htrim : trimChars e = e := by
      refine trimChars_eq_self e ?_ hlast
      intro c hc
      rw [hhead] at hc
      cases hc
      decide
    have hslash : startsWithChar e '/' = true := by
      cases e with
      | nil => exact absurd rfl hne
      | cons c0 t =>
        simp only [List.head?_cons, Option.some.injEq] at hhead
        simp [startsWithChar, hhead]
    have hq : (!e.isEmpty && !startsWithChar e '#') = true := by
      cases e with
      | nil => exact absurd rfl hne
      | cons c0 t =>
        simp only [List.head?_cons, Option.some.injEq] at hhead
        simp [startsWithChar, hhead, List.isEmpty]
    unfold normalize_wordlist
    simp only [List.map_cons, htrim, List.filter_cons, hq, if_pos, List.map_cons, hslash,
      if_true]
    unfold normalize_wordlist at hrest
    rw [hrest]

/-- C8: the discovery wordlist normalization is idempotent, and every
output entry starts with `/`. -/
theorem C8_normalize_idempotent (lines : List (List Char)) :
    normalize_wordlist (normalize_wordlist lines) = normalize_wordlist lines ∧
    ∀ e ∈ normalize_wordlist lines, startsWithChar e '/' = true := by
  constructor
  · exact normalize_fix _ (fun e he => mem_normalize_shape e lines he)
  · intro e he
    obtain ⟨hhead, _⟩ := mem_normalize_shape e lines he
    cases e with
    | nil => simp at hhead
    | cons c0 t =>
      simp only [List.head?_cons, Option.some.injEq] at hhead
      simp [startsWithChar, hhead]

/-- C8 witness: the normalization theorem instantiated on a concrete
wordlist file content. -/
theorem C8_witness :
    normalize_wordlist (normalize_wordlist [" api ".toList, "#comment".toList,
        "/graphql".toList, "".toList]) =
      normalize_wordlist [" api ".toList, "#comment".toList, "/graphql".toList,
        "".toList] ∧
    startsWithChar ("/api".toList) '/' = true :=
  ⟨(C8_normalize_idempotent [" api ".toList, "#comment".toList, "/graphql".toList,
      "".toList]).1,
   (C8_normalize_idempotent [" api ".toList, "#comment".toList, "/graphql".toList,
      "".toList]).2 ("/api".toList) (by decide)⟩

/-- Lookup after insert: the inserted key maps to the new value, all other
keys are untouched. -/
theorem typesLookup_insert (m : TypesMap) (k : String) (v : InferredType) (k' : String) :
    typesLookup (typesInsert m k v) k' = if k' = k then some v else typesLookup m k' := by
  induction m with
  | nil =>
    by_cases h : k' = k
    · simp [typesInsert, typesLookup, h]
    · simp [typesInsert, typesLookup, h, Ne.symm h]
  | cons hd tl ih =>
    obtain ⟨k0, v0⟩ := hd
    by_cases h0 : k0 = k
    · subst h0
      by_cases h' : k' = k0
      · simp [typesInsert, typesLookup, h']
      · simp [typesInsert, typesLookup, h', Ne.symm h']
    · by_cases h' : k0 = k'
      · subst h'
        simp [typesInsert, typesLookup, h0, Ne.symm h0]
      · simp [typesInsert, typesLookup, h0, h', ih]

/-- `register_type` preserves every existing entry. -/
theorem typesLookup_register_preserve (m : TypesMap) (t k : String) (v : InferredType)
    (h : typesLookup m k = some v) :
    typesLookup (register_type m t) k = some v := by
  unfold register_type
  split
  case _ hguard =>
    rw [typesLookup_insert]
    split
    case _ heq =>
      subst heq
      simp only [Bool.and_eq_true, Bool.not_eq_true'] at hguard
      rw [typesContains, h] at hguard
      simp at hguard
    case _ => exact h
  case _ => exact h

/-- After `register_type`, every key maps either to its old value or to the
OBJECT stub of that key. -/
theorem typesLookup_register_cases (m : TypesMap) (t k : String) :
    typesLookup (register_type m t) k = typesLookup m k ∨
    typesLookup (register_type m t) k = some (objectStub k) := by
  unfold register_type
  split
  case _ hguard =>
    rw [typesLookup_insert]
    by_cases heq : k = t
    · subst heq
      exact Or.inr (by simp [objectStub])
    · exact Or.inl (by simp [heq])
  case _ => exact Or.inl rfl

/-- Registering a fresh, non-scalar, non-meta type name produces its OBJECT
stub. -/
theorem typesLookup_register_new (m : TypesMap) (t : String)
    (hscalar : SCALAR_TYPES.contains t = false) (hmeta : strStartsWith t "__" = false)
    (hfresh : typesLookup m t = none) :
    typesLookup (register_type m t) t = some (objectStub t) := by
  unfold register_type
  rw [if_pos]
  · rw [typesLookup_insert]
    simp [objectStub]
  · have hc : typesContains m t = false := by
      rw [typesContains, hfresh]
      rfl
    rw [hc, hscalar, hmeta]
    rfl

/-- Case analysis of the field-detection error scan: either the state is
returned unchanged, or the result's field was set from a matching message
(captured type `T`), every pre-existing map entry is preserved, and `T` is
stub-registered when it is fresh, not a built-in scalar and not
`__`-prefixed. -/
theorem scanFieldErrors_cases (server : Server) (word operation : String) (fuel : Nat) :
    ∀ (errors : List Json) (found : Option InferredField) (types : TypesMap)
      (res : Option InferredField × TypesMap),
    scanFieldErrors server word operation fuel errors (found, types) = some res →
    res = (found, types) ∨
    (∃ T args,
      (∃ e ∈ errors, ∃ msg, (e.get "message").bind Json.asStr = some msg ∧
        (subselectionCapture msg = some (T, word) ∨
         mustHaveSelectionCapture msg = some (word, T))) ∧
      res.1 = some ⟨word, some T, false, false, args⟩ ∧
      (∀ k v, typesLookup types k = some v → typesLookup res.2 k = some v) ∧
      (SCALAR_TYPES.contains T = false → strStartsWith T "__" = false →
        typesLookup types T = none → typesLookup res.2 T = some (objectStub T))) := by
  intro errors
  induction errors with
  | nil =>
    intro found types res hscan
    simp only [scanFieldErrors, Option.some.injEq] at hscan
    exact Or.inl hscan.symm
  | cons e rest ih =>
    intro found types res hscan
    -- lifts the right disjunct of the tail IH over the head error and an
    -- optional first registration
    have lift : ∀ (types' : TypesMap),
        (∀ k v, typesLookup types k = some v → typesLookup types' k = some v) →
        (∀ k, typesLookup types' k = typesLookup types k ∨
          typesLookup types' k = some (objectStub k)) →
        (∃ T args,
          (∃ x ∈ rest, ∃ msg, (x.get "message").bind Json.asStr = some msg ∧
            (subselectionCapture msg = some (T, word) ∨
             mustHaveSelectionCapture msg = some (word, T))) ∧
          res.1 = some ⟨word, some T, false, false, args⟩ ∧
          (∀ k v, typesLookup types' k = some v → typesLookup res.2 k = some v) ∧
          (SCALAR_TYPES.contains T = false → strStartsWith T "__" = false →
            typesLookup types' T = none → typesLookup res.2 T = some (objectStub T))) →
        (∃ T args,
          (∃ x ∈ e :: rest, ∃ msg, (x.get "message").bind Json.asStr = some msg ∧
            (subselectionCapture msg = some (T, word) ∨
             mustHaveSelectionCapture msg = some (word, T))) ∧
          res.1 = some ⟨word, some T, false, false, args⟩ ∧
          (∀ k v, typesLookup types k = some v → typesLookup res.2 k = some v) ∧
          (SCALAR_TYPES.contains T = false → strStartsWith T "__" = false →
            typesLookup types T = none → typesLookup res.2 T = some (objectStub T))) := by
      rintro types' hpres hcases ⟨T, args, ⟨x, hx, hmsg⟩, hres1, hpres', hreg'⟩
      refine ⟨T, args, ⟨x, List.mem_cons_of_mem e hx, hmsg⟩, hres1,
        fun k v hv => hpres' k v (hpres k v hv), ?_⟩
      intro hscalar hmeta hfresh
      rcases hcases T with hsame | hstub
      · exact hreg' hscalar hmeta (hsame.trans hfresh)
      · exact hpres' T _ hstub
    -- the unchanged-state recursion pattern shared by several branches
    have tailStep : scanFieldErrors server word operation fuel rest (found, types) = some res →
        res = (found, types) ∨
        (∃ T args,
          (∃ x ∈ e :: rest, ∃ msg, (x.get "message").bind Json.asStr = some msg ∧
            (subselectionCapture msg = some (T, word) ∨
             mustHaveSelectionCapture msg = some (word, T))) ∧
          res.1 = some ⟨word, some T, false, false, args⟩ ∧
          (∀ k v, typesLookup types k = some v → typesLookup res.2 k = some v) ∧
          (SCALAR_TYPES.contains T = false → strStartsWith T "__" = false →
            typesLookup types T = none → typesLookup res.2 T = some (objectStub T))) := by
      intro h
      rcases ih found types res h with hl | hr
      · exact Or.inl hl
      · exact Or.inr (lift types (fun _ _ h => h) (fun k => Or.inl rfl) hr)
    -- the fresh-registration recursion pattern of both matching branches
    have regStep : ∀ (tn : String) (args : List InferredArg),
        (∃ msg, (e.get "message").bind Json.asStr = some msg ∧
          (subselectionCapture msg = some (tn, word) ∨
           mustHaveSelectionCapture msg = some (word, tn))) →
        scanFieldErrors server word operation fuel rest
          (some ⟨word, some tn, false, false, args⟩, register_type types tn) = some res →
        res = (found, types) ∨
        (∃ T args,
          (∃ x ∈ e :: rest, ∃ msg, (x.get "message").bind Json.asStr = some msg ∧
            (subselectionCapture msg = some (T, word) ∨
             mustHaveSelectionCapture msg = some (word, T))) ∧
          res.1 = some ⟨word, some T, false, false, args⟩ ∧
          (∀ k v, typesLookup types k = some v → typesLookup res.2 k = some v) ∧
          (SCALAR_TYPES.contains T = false → strStartsWith T "__" = false →
            typesLookup types T = none → typesLookup res.2 T = some (objectStub T))) := by
      intro tn args hmatch h
      rcases ih _ _ res h with hl | hr
      · refine Or.inr ⟨tn, args, ⟨e, List.mem_cons_self e rest, hmatch⟩, ?_, ?_, ?_⟩
        · rw [hl]
        · intro k v hv
          rw [hl]
          exact typesLookup_register_preserve types tn k v hv
        · intro hscalar hmeta hfresh
          rw [hl]
          exact typesLookup_register_new types tn hscalar hmeta hfresh
      · exact Or.inr (lift (register_type types tn)
          (fun k v hv => typesLookup_register_preserve types tn k v hv)
          (fun k => typesLookup_register_cases types tn k) hr)
    simp only [scanFieldErrors] at hscan
    rcases hmsg : (e.get "message").bind Json.asStr with _ | msg
    · simp only [hmsg] at hscan
      exact tailStep hscan
    · simp only [hmsg] at hscan
      rcases hsub : subselectionCapture msg with _ | ⟨tn, fc⟩
      · simp only [hsub] at hscan
        cases hfound : found with
        | some f =>
          subst hfound
          simp only [Option.isNone_some, Bool.false_eq_true, if_false] at hscan
          exact tailStep hscan
        | none =>
          subst hfound
          simp only [Option.isNone_none, if_true] at hscan
          rcases hmust : mustHaveSelectionCapture msg with _ | ⟨fc, tn⟩
          · simp only [hmust] at hscan
            exact tailStep hscan
          · simp only [hmust] at hscan
            by_cases hfc : fc = word
            · rw [if_pos hfc] at hscan
              rcases hargs : probe_field_args server word operation fuel with _ | args
              · simp only [hargs] at hscan
                exact absurd hscan (by simp)
              · simp only [hargs] at hscan
                exact regStep tn args ⟨msg, hmsg, Or.inr (hfc ▸ hmust)⟩ hscan
            · rw [if_neg hfc] at hscan
              exact tailStep hscan
      · simp only [hsub] at hscan
        by_cases hfc : fc = word
        · rw [if_pos hfc] at hscan
          rcases hargs : probe_field_args server word operation fuel with _ | args
          · simp only [hargs] at hscan
            exact absurd hscan (by simp)
          · simp only [hargs, Option.isNone_some, Bool.false_eq_true, if_false] at hscan
            exact regStep tn args ⟨msg, hmsg, Or.inl (hfc ▸ hsub)⟩ hscan
        · rw [if_neg hfc] at hscan
          cases hfound : found with
          | some f =>
            subst hfound
            simp only [Option.isNone_some, Bool.false_eq_true, if_false] at hscan
            exact tailStep hscan
          | none =>
            subst hfound
            simp only [Option.isNone_none, if_true] at hscan
            rcases hmust : mustHaveSelectionCapture msg with _ | ⟨fc2, tn2⟩
            · simp only [hmust] at hscan
              exact tailStep hscan
            · simp only [hmust] at hscan
              by_cases hfc2 : fc2 = word
              · rw [if_pos hfc2] at hscan
                rcases hargs : probe_field_args server word operation fuel with _ | args
                · simp only [hargs] at hscan
                  exact absurd hscan (by simp)
                · simp only [hargs] at hscan
                  exact regStep tn2 args ⟨msg, hmsg, Or.inr (hfc2 ▸ hmust)⟩ hscan
              · rw [if_neg hfc2] at hscan
                exact tailStep hscan

/-- If the scanned errors contain a message matching either field-detection
pattern for the probed word (or a field was already found), the scan's
resulting field is set. -/
theorem scanFieldErrors_found_of_match (server : Server) (word operation : String)
    (fuel : Nat) :
    ∀ (errors : List Json) (found : Option InferredField) (types : TypesMap)
      (res : Option InferredField × TypesMap),
    scanFieldErrors server word operation fuel errors (found, types) = some res →
    (found ≠ none ∨ ∃ e ∈ errors, ∃ msg, (e.get "message").bind Json.asStr = some msg ∧
      ∃ T, (subselectionCapture msg = some (T, word) ∨
            mustHaveSelectionCapture msg = some (word, T))) →
    res.1 ≠ none := by
  intro errors
  induction errors with
  | nil =>
    intro found types res hscan hhyp
    simp only [scanFieldErrors, Option.some.injEq] at hscan
    rcases hhyp with hf | ⟨e, he, _⟩
    · rw [← hscan]
      exact hf
    · simp at he
  | cons e rest ih =>
    intro found types res hscan hhyp
    -- a match hypothesis located at the head is impossible in the
    -- non-firing branches; push it into the tail
    simp only [scanFieldErrors] at hscan
    rcases hmsg : (e.get "message").bind Json.asStr with _ | msg
    · simp only [hmsg] at hscan
      refine ih found types res hscan ?_
      rcases hhyp with hf | ⟨x, hx, msg', hmsg', hT⟩
      · exact Or.inl hf
      · rcases List.mem_cons.mp hx with hxe | hxr
        · subst hxe
          rw [hmsg] at hmsg'
          exact absurd hmsg' (by simp)
        · exact Or.inr ⟨x, hxr, msg', hmsg', hT⟩
    · simp only [hmsg] at hscan
      rcases hsub : subselectionCapture msg with _ | ⟨tn, fc⟩
      · simp only [hsub] at hscan
        cases hfound : found with
        | some f =>
          subst hfound
          simp only [Option.isNone_some, Bool.false_eq_true, if_false] at hscan
          exact ih _ types res hscan (Or.inl (by simp))
        | none =>
          subst hfound
          simp only [Option.isNone_none, if_true] at hscan
          rcases hmust : mustHaveSelectionCapture msg with _ | ⟨fc2, tn2⟩
          · simp only [hmust] at hscan
            refine ih none types res hscan ?_
            rcases hhyp with hf | ⟨x, hx, msg', hmsg', T, hT⟩
            · exact absurd rfl hf
            · rcases List.mem_cons.mp hx with hxe | hxr
              · subst hxe
                rw [hmsg] at hmsg'
                injection hmsg' with hmm
                subst hmm
                rcases hT with h | h
                · rw [hsub] at h
                  exact absurd h (by simp)
                · rw [hmust] at h
                  exact absurd h (by simp)
              · exact Or.inr ⟨x, hxr, msg', hmsg', T, hT⟩
          · simp only [hmust] at hscan
            by_cases hfc2 : fc2 = word
            · rw [if_pos hfc2] at hscan
              rcases hargs : probe_field_args server word operation fuel with _ | args
              · simp only [hargs] at hscan
                exact absurd hscan (by simp)
              · simp only [hargs] at hscan
                exact ih _ _ res hscan (Or.inl (by simp))
            · rw [if_neg hfc2] at hscan
              refine ih none types res hscan ?_
              rcases hhyp with hf | ⟨x, hx, msg', hmsg', T, hT⟩
              · exact absurd rfl hf
              · rcases List.mem_cons.mp hx with hxe | hxr
                · subst hxe
                  rw [hmsg] at hmsg'
                  injection hmsg' with hmm
                  subst hmm
                  rcases hT with h | h
                  · rw [hsub] at h
                    exact absurd h (by simp)
                  · rw [hmust] at h
                    injection h with hpair
                    simp only [Prod.mk.injEq] at hpair
                    exact absurd hpair.1 hfc2
                · exact Or.inr ⟨x, hxr, msg', hmsg', T, hT⟩
      · simp only [hsub] at hscan
        by_cases hfc : fc = word
        · rw [if_pos hfc] at hscan
          rcases hargs : probe_field_args server word operation fuel with _ | args
          · simp only [hargs] at hscan
            exact absurd hscan (by simp)
          · simp only [hargs, Option.isNone_some, Bool.false_eq_true, if_false] at hscan
            exact ih _ _ res hscan (Or.inl (by simp))
        · rw [if_neg hfc] at hscan
          cases hfound : found with
          | some f =>
            subst hfound
            simp only [Option.isNone_some, Bool.false_eq_true, if_false] at hscan
            exact ih _ types res hscan (Or.inl (by simp))
          | none =>
            subst hfound
            simp only [Option.isNone_none, if_true] at hscan
            rcases hmust : mustHaveSelectionCapture msg with _ | ⟨fc2, tn2⟩
            · simp only [hmust] at hscan
              refine ih none types res hscan ?_
              rcases hhyp with hf | ⟨x, hx, msg', hmsg', T, hT⟩
              · exact absurd rfl hf
              · rcases List.mem_cons.mp hx with hxe | hxr
                · subst hxe
                  rw [hmsg] at hmsg'
                  injection hmsg' with hmm
                  subst hmm
                  rcases hT with h | h
                  · rw [hsub] at h
                    injection h with hpair
                    exact absurd (congrArg Prod.snd hpair) hfc
                  · rw [hmust] at h
                    exact absurd h (by simp)
                · exact Or.inr ⟨x, hxr, msg', hmsg', T, hT⟩
            · simp only [hmust] at hscan
              by_cases hfc2 : fc2 = word
              · rw [if_pos hfc2] at hscan
                rcases hargs : probe_field_args server word operation fuel with _ | args
                · simp only [hargs] at hscan
                  exact absurd hscan (by simp)
                · simp only [hargs] at hscan
                  exact ih _ _ res hscan (Or.inl (by simp))
              · rw [if_neg hfc2] at hscan
                refine ih none types res hscan ?_
                rcases hhyp with hf | ⟨x, hx, msg', hmsg', T, hT⟩
                · exact absurd rfl hf
                · rcases List.mem_cons.mp hx with hxe | hxr
                  · subst hxe
                    rw [hmsg] at hmsg'
                    injection hmsg' with hmm
                    subst hmm
                    rcases hT with h | h
                    · rw [hsub] at h
                      injection h with hpair
                      exact absurd (congrArg Prod.snd hpair) hfc
                    · rw [hmust] at h
                      injection h with hpair
                      simp only [Prod.mk.injEq] at hpair
                      exact absurd hpair.1 hfc2
                  · exact Or.inr ⟨x, hxr, msg', hmsg', T, hT⟩

/-- C3 counterexample: probing `me` against the error `Subselection
required for type "String" of field "me"` records the field `me` with
output type `String`, but `String` is NOT registered in the types map
(`register_type` refuses built-in scalar names), contra the claim that the
captured type is always registered as an OBJECT stub. -/
theorem C3_counterexample :
    scanFieldErrors nullServer "me" "query" 30 [errObj c3ScalarMsg] (none, []) =
      some (some ⟨"me", some "String", false, false, []⟩, []) ∧
    subselectionCapture c3ScalarMsg = some ("String", "me") ∧
    typesLookup ([] : TypesMap) "String" = none :=
  ⟨rfl, rfl, rfl⟩

/-- C3 (amended): when the response's errors carry a message matching the
subselection-required or must-have-selection pattern with captured field
equal to the probed word, the scan records a field named by the word whose
output type `T` is captured from such a message, and `T` is registered as
an OBJECT stub with empty field list provided it is not a built-in scalar
name, does not start with `__`, and is not already present in the map. -/
theorem C3_subselection_amended (server : Server) (word operation : String) (fuel : Nat)
    (errors : List Json) (types : TypesMap) (res : Option InferredField × TypesMap)
    (hscan : scanFieldErrors server word operation fuel errors (none, types) = some res)
    (hmatch : ∃ e ∈ errors, ∃ msg, (e.get "message").bind Json.asStr = some msg ∧
      ∃ T, (subselectionCapture msg = some (T, word) ∨
            mustHaveSelectionCapture msg = some (word, T))) :
    ∃ T args,
      (∃ e ∈ errors, ∃ msg, (e.get "message").bind Json.asStr = some msg ∧
        (subselectionCapture msg = some (T, word) ∨
         mustHaveSelectionCapture msg = some (word, T))) ∧
      res.1 = some ⟨word, some T, false, false, args⟩ ∧
      (SCALAR_TYPES.contains T = false → strStartsWith T "__" = false →
        typesLookup types T = none → typesLookup res.2 T = some (objectStub T)) := by
  rcases scanFieldErrors_cases server word operation fuel errors none types res hscan
    with hl | hr
  · exfalso
    exact scanFieldErrors_found_of_match server word operation fuel errors none types res
      hscan (Or.inr hmatch) (by rw [hl])
  · obtain ⟨T, args, hcap, hres1, _, hreg⟩ := hr
    exact ⟨T, args, hcap, hres1, hreg⟩

/-- C3 witness: the amended theorem instantiated on spec scenario 3
(`Subselection required for type "User" of field "me"`). -/
theorem C3_witness :
    ∃ T args,
      (∃ e ∈ [errObj c3UserMsg], ∃ msg, (e.get "message").bind Json.asStr = some msg ∧
        (subselectionCapture msg = some (T, "me") ∨
         mustHaveSelectionCapture msg = some ("me", T))) ∧
      (some (⟨"me", some "User", false, false, []⟩ : InferredField),
        ([("User", objectStub "User")] : TypesMap)).1 =
        some ⟨"me", some T, false, false, args⟩ ∧
      (SCALAR_TYPES.contains T = false → strStartsWith T "__" = false →
        typesLookup ([] : TypesMap) T = none →
        typesLookup (some (⟨"me", some "User", false, false, []⟩ : InferredField),
          ([("User", objectStub "User")] : TypesMap)).2 T = some (objectStub T)) :=
  C3_subselection_amended nullServer "me" "query" 30 [errObj c3UserMsg] []
    (some ⟨"me", some "User", false, false, []⟩, [("User", objectStub "User")])
    (by rfl) ⟨errObj c3UserMsg, by simp, c3UserMsg, rfl, "User", Or.inl (by rfl)⟩

/-- Inserting a non-scalar-named value keeps the map scalar-free. -/
theorem scalarFree_insert (m : TypesMap) (k : String) (v : InferredType)
    (hm : scalarFree m) (hv : SCALAR_TYPES.contains v.name = false) :
    scalarFree (typesInsert m k v) := by
  induction m with
  | nil =>
    intro p hp
    simp only [typesInsert, List.mem_singleton] at hp
    rw [hp]
    exact hv
  | cons hd tl ih =>
    obtain ⟨k0, v0⟩ := hd
    intro p hp
    simp only [typesInsert] at hp
    by_cases h0 : k0 = k
    · rw [if_pos h0] at hp
      rcases List.mem_cons.mp hp with hpe | hpr
      · rw [hpe]
        exact hv
      · exact hm p (List.mem_cons_of_mem _ hpr)
    · rw [if_neg h0] at hp
      rcases List.mem_cons.mp hp with hpe | hpr
      · rw [hpe]
        exact hm (k0, v0) (List.mem_cons_self _ _)
      · exact ih (fun q hq => hm q (List.mem_cons_of_mem _ hq)) p hpr

/-- `register_type` keeps the map scalar-free (it refuses scalar names). -/
theorem scalarFree_register (m : TypesMap) (t : String) (hm : scalarFree m) :
    scalarFree (register_type m t) := by
  unfold register_type
  split
  case _ hguard =>
    simp only [Bool.and_eq_true, Bool.not_eq_true'] at hguard
    exact scalarFree_insert m t _ hm hguard.1.2
  case _ => exact hm

/-- The classification step of `probe_field` either keeps the types map or
applies one `register_type`. -/
theorem probeFieldClassify_types (response : GraphQLResponse) (field_name : String)
    (field : InferredField) (types : TypesMap) :
    (probeFieldClassify response field_name field types).2 = types ∨
    ∃ t, (probeFieldClassify response field_name field types).2 = register_type types t := by
  unfold probeFieldClassify
  split
  · split
    · split
      · split
        · split
          · split
            · exact Or.inr ⟨_, rfl⟩
            · exact Or.inl rfl
          · exact Or.inl rfl
        · split
          · exact Or.inr ⟨_, rfl⟩
          · exact Or.inl rfl
      · exact Or.inl rfl
    · exact Or.inl rfl
  · split
    · exact Or.inl rfl
    · exact Or.inl rfl

/-- The scalar re-query never changes the types map. -/
theorem probeFieldScalarRetry_types (server : Server) (field_name operation : String)
    (field : InferredField) (types : TypesMap) (f' : InferredField) (t' : TypesMap)
    (h : probeFieldScalarRetry server field_name operation field types = some (f', t')) :
    t' = types := by
  simp only [probeFieldScalarRetry] at h
  rcases hr : server (operation ++ " \x7b " ++ field_name ++ " \x7d") with _ | r2
  · rw [hr] at h
    exact Option.noConfusion h
  · rw [hr] at h
    simp only [Option.bind_eq_bind, Option.some_bind] at h
    split at h
    · split at h
      · simp only [Option.some.injEq, Prod.mk.injEq] at h
        exact h.2.symm
      · simp only [Option.some.injEq, Prod.mk.injEq] at h
        exact h.2.symm
    · simp only [Option.some.injEq, Prod.mk.injEq] at h
      exact h.2.symm

/-- `probe_field` keeps the types map scalar-free. -/
theorem probe_field_scalarFree (server : Server) (field_name operation : String)
    (types : TypesMap) (fuel : Nat) (f' : InferredField) (t' : TypesMap)
    (h : probe_field server field_name operation types fuel = some (f', t'))
    (hm : scalarFree types) : scalarFree t' := by
  simp only [probe_field] at h
  rcases hq : server (operation ++ " \x7b " ++ field_name ++ " \x7b __typename \x7d \x7d")
    with _ | response
  · rw [hq] at h
    exact Option.noConfusion h
  · rw [hq] at h
    simp only [Option.bind_eq_bind, Option.some_bind] at h
    rcases hcl : probeFieldClassify response field_name ⟨field_name, none, false, false, []⟩
      types with ⟨f1, t1⟩
    simp only [hcl] at h
    have ht1 : scalarFree t1 := by
      rcases probeFieldClassify_types response field_name ⟨field_name, none, false, false, []⟩
        types with hsame | ⟨t, hreg⟩
      · rw [hcl] at hsame
        simp only at hsame
        rw [hsame]
        exact hm
      · rw [hcl] at hreg
        simp only at hreg
        rw [hreg]
        exact scalarFree_register types t hm
    split at h
    · rcases hre : probeFieldScalarRetry server field_name operation f1 t1 with _ | p2
      · rw [hre] at h
        exact Option.noConfusion h
      · obtain ⟨f2, t2⟩ := p2
        rw [hre] at h
        simp only [Option.some_bind] at h
        have ht2 : t2 = t1 := probeFieldScalarRetry_types server field_name operation f1 t1
          f2 t2 hre
        rcases hargs : probe_field_args server field_name operation fuel with _ | args
        · rw [hargs] at h
          exact Option.noConfusion h
        · rw [hargs] at h
          simp only [Option.some_bind, Option.some.injEq, Prod.mk.injEq] at h
          rw [← h.2, ht2]
          exact ht1
    · rcases hargs : probe_field_args server field_name operation fuel with _ | args
      · rw [hargs] at h
        exact Option.noConfusion h
      · rw [hargs] at h
        simp only [Option.some_bind, Option.some.injEq, Prod.mk.injEq] at h
        rw [← h.2]
        exact ht1

/-- The guarded `Cannot query field .. on type T` insertion fold keeps the
map scalar-free. -/
theorem scalarFree_fieldErrorFold (caps : List (String × String)) :
    ∀ (t : TypesMap), scalarFree t →
    scalarFree (caps.foldl
      (fun (t : TypesMap) cap =>
        let type_str := cap.2
        if !typesContains t type_str && !SCALAR_TYPES.contains type_str then
          typesInsert t type_str ⟨type_str, "OBJECT", []⟩
        else t) t) := by
  induction caps with
  | nil => intro t ht; exact ht
  | cons c rest ih =>
    intro t ht
    rw [List.foldl_cons]
    refine ih _ ?_
    simp only
    split
    case _ hguard =>
      simp only [Bool.and_eq_true, Bool.not_eq_true'] at hguard
      exact scalarFree_insert t c.2 _ ht hguard.2
    case _ => exact ht

/-- The suggestion/type harvesting pass keeps the map scalar-free. -/
theorem processProbeErrors_scalarFree (response : GraphQLResponse)
    (checked queue : List String) (types : TypesMap) (hm : scalarFree types) :
    scalarFree (processProbeErrors response checked queue types).2 := by
  unfold processProbeErrors
  rcases harr : response.get_errors.bind Json.asArray with _ | arr
  · exact hm
  · simp only
    clear harr
    induction arr generalizing queue types with
    | nil => exact hm
    | cons e rest ih =>
      rw [List.foldl_cons]
      rcases hmsg : (e.get "message").bind Json.asStr with _ | msg
      · simp only [hmsg]
        exact ih queue types hm
      · simp only [hmsg]
        exact ih _ _ (scalarFree_fieldErrorFold (fieldErrorCaptures msg) types hm)

/-- The field-detection scan keeps the map scalar-free. -/
theorem scanFieldErrors_scalarFree (server : Server) (word operation : String)
    (fuel : Nat) :
    ∀ (errors : List Json) (found : Option InferredField) (types : TypesMap)
      (res : Option InferredField × TypesMap),
    scanFieldErrors server word operation fuel errors (found, types) = some res →
    scalarFree types → scalarFree res.2 := by
  intro errors
  induction errors with
  | nil =>
    intro found types res hscan hm
    simp only [scanFieldErrors, Option.some.injEq] at hscan
    rw [← hscan]
    exact hm
  | cons e rest ih =>
    intro found types res hscan hm
    simp only [scanFieldErrors] at hscan
    rcases hmsg : (e.get "message").bind Json.asStr with _ | msg
    · simp only [hmsg] at hscan
      exact ih found types res hscan hm
    · simp only [hmsg] at hscan
      rcases hsub : subselectionCapture msg with _ | ⟨tn, fc⟩
      · simp only [hsub] at hscan
        cases hfound : found with
        | some f =>
          subst hfound
          simp only [Option.isNone_some, Bool.false_eq_true, if_false] at hscan
          exact ih _ types res hscan hm
        | none =>
          subst hfound
          simp only [Option.isNone_none, if_true] at hscan
          rcases hmust : mustHaveSelectionCapture msg with _ | ⟨fc2, tn2⟩
          · simp only [hmust] at hscan
            exact ih none types res hscan hm
          · simp only [hmust] at hscan
            by_cases hfc2 : fc2 = word
            · rw [if_pos hfc2] at hscan
              rcases hargs : probe_field_args server word operation fuel with _ | args
              · simp only [hargs] at hscan
                exact absurd hscan (by simp)
              · simp only [hargs] at hscan
                exact ih _ _ res hscan (scalarFree_register types tn2 hm)
            · rw [if_neg hfc2] at hscan
              exact ih none types res hscan hm
      · simp only [hsub] at hscan
        by_cases hfc : fc = word
        · rw [if_pos hfc] at hscan
          rcases hargs : probe_field_args server word operation fuel with _ | args
          · simp only [hargs] at hscan
            exact absurd hscan (by simp)
          · simp only [hargs, Option.isNone_some, Bool.false_eq_true, if_false] at hscan
            exact ih _ _ res hscan (scalarFree_register types tn hm)
        · rw [if_neg hfc] at hscan
          cases hfound : found with
          | some f =>
            subst hfound
            simp only [Option.isNone_some, Bool.false_eq_true, if_false] at hscan
            exact ih _ types res hscan hm
          | none =>
            subst hfound
            simp only [Option.isNone_none, if_true] at hscan
            rcases hmust : mustHaveSelectionCapture msg with _ | ⟨fc2, tn2⟩
            · simp only [hmust] at hscan
              exact ih none types res hscan hm
            · simp only [hmust] at hscan
              by_cases hfc2 : fc2 = word
              · rw [if_pos hfc2] at hscan
                rcases hargs : probe_field_args server word operation fuel with _ | args
                · simp only [hargs] at hscan
                  exact absurd hscan (by simp)
                · simp only [hargs] at hscan
                  exact ih _ _ res hscan (scalarFree_register types tn2 hm)
              · rw [if_neg hfc2] at hscan
                exact ih none types res hscan hm

/-- The root-probe work loop keeps the map scalar-free. -/
theorem probeRootLoop_scalarFree (server : Server) (operation : String) :
    ∀ (fuel : Nat) (words checked : List String) (fields : List InferredField)
      (types : TypesMap) (res : List InferredField × TypesMap × List String),
    probeRootLoop server operation fuel words checked fields types = some res →
    scalarFree types → scalarFree res.2.1 := by
  intro fuel
  induction fuel with
  | zero =>
    intro words checked fields types res h hm
    exact Option.noConfusion h
  | succ fuel ih =>
    intro words checked fields types res h hm
    simp only [probeRootLoop] at h
    rcases hpop : popLast words with _ | ⟨rest, word⟩
    · simp only [hpop, Option.some.injEq] at h
      rw [← h]
      exact hm
    · simp only [hpop] at h
      by_cases hchk : checked.contains word
      · rw [if_pos hchk] at h
        exact ih rest checked fields types res h hm
      · rw [if_neg hchk] at h
        cases hval : is_valid_graphql_name word with
        | false =>
          simp only [hval, Bool.not_false, if_true] at h
          exact ih rest _ fields types res h hm
        | true =>
          simp only [hval, Bool.not_true, Bool.false_eq_true, if_false] at h
          rcases hs : server (operation ++ " \x7b " ++ word ++ " \x7d") with _ | response
          · simp only [hs] at h
            exact ih rest _ fields types res h hm
          · simp only [hs] at h
            by_cases hdh : (response.has_data &&
                match response.get_data with
                | some data => (data.get word).isSome
                | none => false) = true
            · rw [if_pos hdh] at h
              rcases hpf : probe_field server word operation types fuel with _ | p
              · simp only [hpf] at h
                exact Option.noConfusion h
              · obtain ⟨f, types1⟩ := p
                simp only [hpf] at h
                rcases hpp : processProbeErrors response (checked.concat word) rest types1
                  with ⟨queue, types2⟩
                simp only [hpp] at h
                have h1 : scalarFree types1 :=
                  probe_field_scalarFree server word operation types fuel f types1 hpf hm
                have h2 : scalarFree types2 := by
                  have hq := processProbeErrors_scalarFree response (checked.concat word)
                    rest types1 h1
                  rw [hpp] at hq
                  exact hq
                exact ih _ _ _ types2 res h h2
            · rw [if_neg hdh] at h
              rcases herr : response.get_errors.bind Json.asArray with _ | arr
              · simp only [herr] at h
                rcases hpp : processProbeErrors response (checked.concat word) rest types
                  with ⟨queue, types2⟩
                simp only [hpp] at h
                have h2 : scalarFree types2 := by
                  have hq := processProbeErrors_scalarFree response (checked.concat word)
                    rest types hm
                  rw [hpp] at hq
                  exact hq
                exact ih _ _ _ types2 res h h2
              · simp only [herr] at h
                rcases hscan : scanFieldErrors server word operation fuel arr (none, types)
                  with _ | p
                · simp only [hscan] at h
                  exact Option.noConfusion h
                · obtain ⟨found, types1⟩ := p
                  simp only [hscan] at h
                  rcases hpp : processProbeErrors response (checked.concat word) rest types1
                    with ⟨queue, types2⟩
                  simp only [hpp] at h
                  have h1 : scalarFree types1 :=
                    scanFieldErrors_scalarFree server word operation fuel arr none types
                      (found, types1) hscan hm
                  have h2 : scalarFree types2 := by
                    have hq := processProbeErrors_scalarFree response (checked.concat word)
                      rest types1 h1
                    rw [hpp] at hq
                    exact hq
                  exact ih _ _ _ types2 res h h2

/-- `infer` only produces scalar-free types maps: every registration path
excludes the built-in scalar names, and the root types are named
Query/Mutation/Subscription. -/
theorem infer_scalarFree (server : Server) (wordlist : List String) (fuel : Nat)
    (schema : InferredSchema) (h : infer server wordlist fuel = some schema) :
    scalarFree schema.types := by
  simp only [infer] at h
  rcases h1 : probeRootLoop server "query" fuel wordlist [] [] [] with _ | r1
  · rw [h1] at h
    exact Option.noConfusion h
  · obtain ⟨query_fields, types1, checked1⟩ := r1
    rw [h1] at h
    simp only [Option.bind_eq_bind, Option.some_bind] at h
    have hm1 : scalarFree types1 :=
      probeRootLoop_scalarFree server "query" fuel wordlist [] [] []
        (query_fields, types1, checked1) h1 (fun p hp => absurd hp (List.not_mem_nil p))
    set types1' := if !query_fields.isEmpty then
      typesInsert types1 "Query" ⟨"Query", "OBJECT", query_fields⟩ else types1 with htypes1'
    have hm1' : scalarFree types1' := by
      rw [htypes1']
      split
      · exact scalarFree_insert types1 "Query" _ hm1 (by show SCALAR_TYPES.contains "Query" = false; decide)
      · exact hm1
    rcases h2 : probeRootLoop server "mutation" fuel wordlist [] [] types1' with _ | r2
    · rw [h2] at h
      exact Option.noConfusion h
    · obtain ⟨mutation_fields, types2, checked2⟩ := r2
      rw [h2] at h
      simp only [Option.some_bind] at h
      have hm2 : scalarFree types2 :=
        probeRootLoop_scalarFree server "mutation" fuel wordlist [] [] types1'
          (mutation_fields, types2, checked2) h2 hm1'
      set types2' := if !mutation_fields.isEmpty then
        typesInsert types2 "Mutation" ⟨"Mutation", "OBJECT", mutation_fields⟩ else types2
        with htypes2'
      have hm2' : scalarFree types2' := by
        rw [htypes2']
        split
        · exact scalarFree_insert types2 "Mutation" _ hm2 (by show SCALAR_TYPES.contains "Mutation" = false; decide)
        · exact hm2
      rcases h3 : probeRootLoop server "subscription" fuel wordlist [] [] types2'
        with _ | r3
      · rw [h3] at h
        exact Option.noConfusion h
      · obtain ⟨subscription_fields, types3, checked3⟩ := r3
        rw [h3] at h
        simp only [Option.some_bind, Option.some.injEq] at h
        have hm3 : scalarFree types3 :=
          probeRootLoop_scalarFree server "subscription" fuel wordlist [] [] types2'
            (subscription_fields, types3, checked3) h3 hm2'
        have hm3' : scalarFree (if !subscription_fields.isEmpty then
            typesInsert types3 "Subscription" ⟨"Subscription", "OBJECT", subscription_fields⟩
            else types3) := by
          split
          · exact scalarFree_insert types3 "Subscription" _ hm3 (by show SCALAR_TYPES.contains "Subscription" = false; decide)
          · exact hm3
        rw [← h]
        exact hm3'

/-- In the introspection document of a scalar-free inferred schema, each
built-in scalar name names exactly one entry of the types list: the one
from the fixed scalar preamble. -/
theorem countTypesNamed_scalarFree (schema : InferredSchema) (hm : scalarFree schema.types) :
    ∀ s ∈ SCALAR_TYPES, countTypesNamed (to_introspection_format schema) s = 1 := by
  intro s hs
  have hred : countTypesNamed (to_introspection_format schema) s =
      (SCALAR_TYPES.map scalarTypeEntry ++
        schema.types.map (fun p => inferredTypeJson p.2)).countP
        (fun e => match e.get "name" with
          | some (Json.str n) => n = s
          | _ => false) := rfl
  rw [hred, List.countP_append]
  have hzero : (schema.types.map (fun p => inferredTypeJson p.2)).countP
      (fun e => match e.get "name" with
        | some (Json.str n) => n = s
        | _ => false) = 0 := by
    rw [List.countP_eq_zero]
    intro e he
    obtain ⟨p, hp, hpe⟩ := List.mem_map.mp he
    have hname : SCALAR_TYPES.contains p.2.name = false := hm p hp
    rw [← hpe]
    have hget : (inferredTypeJson p.2).get "name" = some (Json.str p.2.name) := rfl
    simp only [hget, decide_eq_true_eq]
    intro heq
    rw [heq] at hname
    have hmem : SCALAR_TYPES.contains s = true := by simpa using hs
    rw [hmem] at hname
    exact Bool.noConfusion hname
  rw [hzero]
  simp only [SCALAR_TYPES, List.mem_cons, List.not_mem_nil, or_false] at hs
  rcases hs with rfl | rfl | rfl | rfl | rfl <;> decide

/-- C9: for every schema emitted by the inferrer, each built-in scalar name
String, Int, Float, Boolean, ID appears exactly once in the
`data.__schema.types` list of `to_introspection_format`: once from the
scalar preamble and never among the discovered types, because every
registration path excludes built-in scalar names. -/
theorem C9_builtin_scalars_once (server : Server) (wordlist : List String) (fuel : Nat)
    (schema : InferredSchema) (hinfer : infer server wordlist fuel = some schema) :
    ∀ s ∈ SCALAR_TYPES, countTypesNamed (to_introspection_format schema) s = 1 :=
  countTypesNamed_scalarFree schema (infer_scalarFree server wordlist fuel schema hinfer)

/-- C9 witness: the uniqueness theorem instantiated on a concrete inference
run (a server failing every request, seed wordlist `["me"]`). -/
theorem C9_witness :
    countTypesNamed (to_introspection_format ⟨none, none, none, []⟩) "String" = 1 :=
  C9_builtin_scalars_once nullServer ["me"] 5 ⟨none, none, none, []⟩ (by rfl) "String"
    (by decide)
